import Mathlib

/-!
Shallow embedding of the attendance reconciliation core of
`backend/app/services/attendance_service.py` (class `AttendanceService`),
together with theorems checking the specification's claims about it.

The persistent attendance sheet is modelled as a `Grid`: a list of rows of
string cells, row 0 being the header row.  `gspread` cell writes
(`worksheet.update_cell`, 1-indexed) are modelled by `setCell` (0-indexed,
padding the grid with empty rows/cells exactly where a spreadsheet write
would materialize empty cells).  Python `str.strip` is modelled by
`pyStrip` (whitespace at both ends) and `str.lower` by `pyLower`
(ASCII case folding, as in the data handled here); both are implemented
directly over the character list so that concrete instances compute.
Python dicts are modelled by insertion-ordered association lists.
Operations that read the remote sheet inside a `try`/`except` take the
outcome of the fetch as an `Except String` value.
-/

namespace AttendanceModel

/-- Python `str.strip()`: drop whitespace from both ends. -/
def pyStripList (cs : List Char) : List Char :=
  ((cs.dropWhile Char.isWhitespace).reverse.dropWhile Char.isWhitespace).reverse

def pyStrip (s : String) : String := ⟨pyStripList s.data⟩

/-- Python `str.lower()`. -/
def pyLower (s : String) : String := ⟨s.data.map Char.toLower⟩

/-- `pat` is an initial segment of `hay`. -/
def listIsStart : List Char → List Char → Bool
  | [], _ => true
  | _ :: _, [] => false
  | p :: ps, c :: cs => p == c && listIsStart ps cs

/-- `pat` occurs somewhere in `hay`. -/
def containsSub (pat : List Char) (hay : List Char) : Bool :=
  listIsStart pat hay ||
    match hay with
    | [] => false
    | _ :: cs => containsSub pat cs

/-- Python `pat in s` (substring containment). -/
def containsSubstr (s pat : String) : Bool := containsSub pat.data s.data

/-- Python `s.endswith(pat)`. -/
def strEndsWith (s pat : String) : Bool := listIsStart pat.data.reverse s.data.reverse

/-- A sheet snapshot (`worksheet.get_all_values()`): rows of cells, row 0 is
the header row. -/
abbrev Grid := List (List String)

/-- Cell of a row at 0-indexed position `c`; cells beyond the stored row read
as the empty string, as in the Python code's bounds-guarded indexing. -/
def cellAt (row : List String) (c : Nat) : String := row.getD c ""

/-- Row at 0-indexed position `r`; absent rows read as the empty row. -/
def rowAt (g : Grid) (r : Nat) : List String := g.getD r []

/-- Cell of the grid at 0-indexed `(r, c)`. -/
def getCell (g : Grid) (r c : Nat) : String := cellAt (rowAt g r) c

/-- Write cell `c` of a single row, padding with empty cells if the row is
shorter than `c + 1`. -/
def setCellRow (row : List String) (c : Nat) (v : String) : List String :=
  (row ++ List.replicate (c + 1 - row.length) "").set c v

/-- Model of `worksheet.update_cell(r+1, c+1, v)`: write cell `(r, c)`
(0-indexed), padding the grid with empty rows if needed. -/
def setCell (g : Grid) (r c : Nat) (v : String) : Grid :=
  let g' := g ++ List.replicate (r + 1 - g.length) []
  g'.set r (setCellRow (g'.getD r []) c v)

/-- The header row `all_values[0]`. -/
def headerOf (g : Grid) : List String := rowAt g 0

/-- `submit_attendance` lines 247-254: scan the header cells (`l` is the
remaining suffix, `i` the absolute index of its head) for the first index
`≥ 2` whose trimmed cell equals the date key (columns A and B are skipped). -/
def findDateColAux (date : String) : List String → Nat → Option Nat
  | [], _ => none
  | h :: rest, i =>
    if 2 ≤ i ∧ pyStrip h = date then some i
    else findDateColAux date rest (i + 1)

def findDateCol (header : List String) (date : String) : Option Nat :=
  findDateColAux date header 0

/-- `submit_attendance` lines 258-265: scan for the first header cell that is
empty after trimming (`l` is the remaining suffix, `i` the absolute index of
its head). -/
def firstEmptyColAux : List String → Nat → Option Nat
  | [], _ => none
  | h :: rest, i =>
    if pyStrip h = "" then some i
    else firstEmptyColAux rest (i + 1)

/-- `submit_attendance` lines 256-269: column index used for a date key not
found in the header: the loop `range(1, len(header_row))` looks for the first
empty header cell from index 1 on, and failing that, the index one past the
last existing header cell is used. -/
def newDateCol (header : List String) : Nat :=
  (firstEmptyColAux (header.drop 1) 1).getD header.length

/-- The name cell of a data row: column B (index 1), trimmed. -/
def rowName (row : List String) : String := pyStrip (cellAt row 1)

/-- The contribution of one data row to the name list: its trimmed column-B
cell when non-empty. -/
def nameEntry (row : List String) : Option String :=
  if rowName row = "" then none else some (rowName row)

/-- `submit_attendance` lines 278-287: names of the data rows (rows 1..) whose
trimmed column-B cell is non-empty, in row order. -/
def namesOf (g : Grid) : List String :=
  (g.drop 1).filterMap nameEntry

/-- `submit_attendance` line 293: the dict comprehension
`{name.strip().lower(): (name.strip(), status) ...}` — later entries shadow
earlier ones, so lookup finds the last matching pair. -/
def attLookup (att : List (String × String)) (key : String) : Option (String × String) :=
  (att.reverse.find? (fun p => pyLower (pyStrip p.1) == key)).map (fun p => (pyStrip p.1, p.2))

/-- `submit_attendance` lines 296-308: value written for one member row. -/
def statusFor (att : List (String × String)) (name : String) : String :=
  match attLookup att (pyLower name) with
  | some (_, s) => s
  | none => "Not Present"

/-- `submit_attendance` lines 296-308: write the status of each listed name
into the date column, at consecutive rows starting from row `r` (0-indexed;
the code enumerates from sheet row 2, i.e. `r = 1`). -/
def writeStatuses (att : List (String × String)) (dateCol : Nat) (g : Grid) :
    List String → Nat → Grid
  | [], _ => g
  | n :: ns, r => writeStatuses att dateCol (setCell g r dateCol (statusFor att n)) ns (r + 1)

/-- `submit_attendance` lines 313-320: one iteration of the loop building
`new_members`: skip the entry when its trimmed-lowercased key matches an
existing name or an already collected entry, otherwise record the trimmed key
with its status. -/
def newMemberStep (existing : List String) (acc : List (String × String))
    (p : String × String) : List (String × String) :=
  let nl := pyLower (pyStrip p.1)
  if existing.any (fun n => pyLower n == nl) || acc.any (fun q => pyLower q.1 == nl) then
    acc
  else acc ++ [(pyStrip p.1, p.2)]

/-- `submit_attendance` lines 310-320: observation entries whose
trimmed-lowercased key matches no existing name, first entry per normalized
key, carrying the trimmed key and its status. -/
def newMembersOf (att : List (String × String)) (existing : List String) :
    List (String × String) :=
  att.foldl (newMemberStep existing) []

/-- `submit_attendance` lines 322-334: append each new member at the next row:
name into column B, status into the date column; the running
`existing_names_lower` set is re-checked before each write. -/
def appendMembers (dateCol : Nat) (members : List (String × String))
    (existingLower : List String) (r : Nat) (g : Grid) : Grid :=
  match members with
  | [] => g
  | (n, s) :: rest =>
    if existingLower.contains (pyLower n) then
      appendMembers dateCol rest existingLower r g
    else
      appendMembers dateCol rest (pyLower n :: existingLower) (r + 1)
        (setCell (setCell g r 1 n) r dateCol s)

/-- The row materialized for a newly appended member: empty row with the name
in column B and the status in the date column. -/
def memberRow (dateCol : Nat) (p : String × String) : List String :=
  setCellRow (setCellRow [] 1 p.1) dateCol p.2

/-- The date column used by a submission: the matched column, or the creation
position (lines 243-274). -/
def resolvedCol (g : Grid) (date : String) : Nat :=
  match findDateCol (headerOf g) date with
  | some i => i
  | none => newDateCol (headerOf g)

/-- The grid after the header write of the resolution step (line 273): the
grid itself when the column was matched, otherwise the grid with the date
written into the header at the creation position. -/
def resolvedGrid (g : Grid) (date : String) : Grid :=
  match findDateCol (headerOf g) date with
  | some _ => g
  | none => setCell g 0 (newDateCol (headerOf g)) date

/-- Model of `AttendanceService.submit_attendance` (lines 223-336) acting on a
sheet snapshot.  Returns `none` when the snapshot is empty (the code raises
`ValueError("Attendance sheet is empty")`). -/
def submitAttendance (date : String) (att : List (String × String)) (g : Grid) :
    Option Grid :=
  if g = [] then none
  else
    let header := headerOf g
    let resolved : Nat × Grid :=
      match findDateCol header date with
      | some i => (i, g)
      | none =>
        let i := newDateCol header
        (i, setCell g 0 i date)
    let names := namesOf g
    let g2 := writeStatuses att resolved.1 resolved.2 names 1
    some (appendMembers resolved.1 (newMembersOf att names)
      (names.map pyLower) g.length g2)

/-- Repeated submission of observations under one date key, threading the
sheet state. -/
def submitMany (date : String) (obss : List (List (String × String))) (g : Grid) :
    Option Grid :=
  obss.foldl (fun acc att => acc.bind (submitAttendance date att)) (some g)

/-! ### Date parsing (`datetime.strptime` over the seven formats of
`get_most_recent_attendance`, line 183)

Each format is embedded as a whole-string parser following CPython's
`_strptime` regexes: `%Y` is four digits, `%m` is `1[0-2]|0[1-9]|[1-9]`,
`%d` is `3[01]|[12]\d|0[1-9]|[1-9]`, `%y` is two digits mapped to 2000-2068 /
1969-1999, `%B`/`%b` are English month names matched case-insensitively, and
whitespace in the format matches one or more whitespace characters.  The
parsed fields are then validated as `datetime` would (year 1-9999, day within
the month, Gregorian leap years). -/

/-- A parsed calendar date. -/
structure PDate where
  year : Nat
  month : Nat
  day : Nat
deriving Repr, DecidableEq

/-- Chronological strict order on parsed dates (`datetime` comparison; all
seven formats leave the time-of-day fields at zero). -/
def PDate.ltb (a b : PDate) : Bool :=
  if a.year ≠ b.year then decide (a.year < b.year)
  else if a.month ≠ b.month then decide (a.month < b.month)
  else decide (a.day < b.day)

def digitVal (c : Char) : Nat := c.toNat - '0'.toNat

/-- `%Y`: exactly four digits. -/
def pYear4 : List Char → Option (Nat × List Char)
  | a :: b :: c :: d :: rest =>
    if a.isDigit ∧ b.isDigit ∧ c.isDigit ∧ d.isDigit then
      some (((digitVal a * 10 + digitVal b) * 10 + digitVal c) * 10 + digitVal d, rest)
    else none
  | _ => none

/-- `%y`: exactly two digits; 00-68 maps to 2000-2068, 69-99 to 1969-1999. -/
def pYear2 : List Char → Option (Nat × List Char)
  | a :: b :: rest =>
    if a.isDigit ∧ b.isDigit then
      let n := digitVal a * 10 + digitVal b
      some (if n ≤ 68 then 2000 + n else 1900 + n, rest)
    else none
  | _ => none

/-- `%m`: `1[0-2]|0[1-9]|[1-9]`. -/
def pMonth : List Char → Option (Nat × List Char)
  | a :: b :: rest =>
    if a = '1' ∧ '0' ≤ b ∧ b ≤ '2' then some (10 + digitVal b, rest)
    else if a = '0' ∧ '1' ≤ b ∧ b ≤ '9' then some (digitVal b, rest)
    else if '1' ≤ a ∧ a ≤ '9' then some (digitVal a, b :: rest)
    else none
  | [a] => if '1' ≤ a ∧ a ≤ '9' then some (digitVal a, []) else none
  | [] => none

/-- `%d`: `3[01]|[12]\d|0[1-9]|[1-9]`. -/
def pDay : List Char → Option (Nat × List Char)
  | a :: b :: rest =>
    if a = '3' ∧ (b = '0' ∨ b = '1') then some (30 + digitVal b, rest)
    else if (a = '1' ∨ a = '2') ∧ b.isDigit then some (digitVal a * 10 + digitVal b, rest)
    else if a = '0' ∧ '1' ≤ b ∧ b ≤ '9' then some (digitVal b, rest)
    else if '1' ≤ a ∧ a ≤ '9' then some (digitVal a, b :: rest)
    else none
  | [a] => if '1' ≤ a ∧ a ≤ '9' then some (digitVal a, []) else none
  | [] => none

/-- Case-insensitive literal word match, consuming the word. -/
def dropWordCI : List Char → List Char → Option (List Char)
  | [], rest => some rest
  | _ :: _, [] => none
  | p :: ps, c :: cs => if c.toLower = p.toLower then dropWordCI ps cs else none

def monthsFull : List (String × Nat) :=
  [("January", 1), ("February", 2), ("March", 3), ("April", 4), ("May", 5), ("June", 6),
   ("July", 7), ("August", 8), ("September", 9), ("October", 10), ("November", 11),
   ("December", 12)]

def monthsAbbr : List (String × Nat) :=
  [("Jan", 1), ("Feb", 2), ("Mar", 3), ("Apr", 4), ("May", 5), ("Jun", 6), ("Jul", 7),
   ("Aug", 8), ("Sep", 9), ("Oct", 10), ("Nov", 11), ("Dec", 12)]

/-- `%B` / `%b`: a month name from the table, case-insensitively. -/
def pMonthName (tbl : List (String × Nat)) (cs : List Char) : Option (Nat × List Char) :=
  match tbl with
  | [] => none
  | (nm, v) :: rest =>
    match dropWordCI nm.data cs with
    | some cs' => some (v, cs')
    | none => pMonthName rest cs

/-- A literal character of the format. -/
def pLit (ch : Char) : List Char → Option (List Char)
  | c :: cs => if c = ch then some cs else none
  | [] => none

/-- Whitespace in the format: one or more whitespace characters. -/
def pWs1 : List Char → Option (List Char)
  | c :: cs => if c.isWhitespace then some (cs.dropWhile Char.isWhitespace) else none
  | [] => none

def isLeap (y : Nat) : Bool := y % 4 = 0 ∧ (y % 100 ≠ 0 ∨ y % 400 = 0)

def daysInMonth (y m : Nat) : Nat :=
  if m = 2 then (if isLeap y then 29 else 28)
  else if m = 4 ∨ m = 6 ∨ m = 9 ∨ m = 11 then 30
  else 31

/-- `datetime(year, month, day)` construction: validates the field ranges. -/
def mkDate (y m d : Nat) : Option PDate :=
  if 1 ≤ y ∧ y ≤ 9999 ∧ 1 ≤ m ∧ m ≤ 12 ∧ 1 ≤ d ∧ d ≤ daysInMonth y m then
    some ⟨y, m, d⟩
  else none

/-- `strptime(s, "%Y-%m-%d")`. -/
def parseYmdDash (s : String) : Option PDate := do
  let (y, r1) ← pYear4 s.data
  let r2 ← pLit '-' r1
  let (m, r3) ← pMonth r2
  let r4 ← pLit '-' r3
  let (d, r5) ← pDay r4
  if r5 = [] then mkDate y m d else none

/-- `strptime(s, "%m/%d/%Y")`. -/
def parseMdySlash (s : String) : Option PDate := do
  let (m, r1) ← pMonth s.data
  let r2 ← pLit '/' r1
  let (d, r3) ← pDay r2
  let r4 ← pLit '/' r3
  let (y, r5) ← pYear4 r4
  if r5 = [] then mkDate y m d else none

/-- `strptime(s, "%d/%m/%Y")`. -/
def parseDmySlash (s : String) : Option PDate := do
  let (d, r1) ← pDay s.data
  let r2 ← pLit '/' r1
  let (m, r3) ← pMonth r2
  let r4 ← pLit '/' r3
  let (y, r5) ← pYear4 r4
  if r5 = [] then mkDate y m d else none

/-- `strptime(s, "%Y/%m/%d")`. -/
def parseYmdSlash (s : String) : Option PDate := do
  let (y, r1) ← pYear4 s.data
  let r2 ← pLit '/' r1
  let (m, r3) ← pMonth r2
  let r4 ← pLit '/' r3
  let (d, r5) ← pDay r4
  if r5 = [] then mkDate y m d else none

/-- `strptime(s, "%B %d, %Y")`. -/
def parseBdY (s : String) : Option PDate := do
  let (m, r1) ← pMonthName monthsFull s.data
  let r2 ← pWs1 r1
  let (d, r3) ← pDay r2
  let r4 ← pLit ',' r3
  let r5 ← pWs1 r4
  let (y, r6) ← pYear4 r5
  if r6 = [] then mkDate y m d else none

/-- `strptime(s, "%d-%b-%Y")`. -/
def parseDbY (s : String) : Option PDate := do
  let (d, r1) ← pDay s.data
  let r2 ← pLit '-' r1
  let (m, r3) ← pMonthName monthsAbbr r2
  let r4 ← pLit '-' r3
  let (y, r5) ← pYear4 r4
  if r5 = [] then mkDate y m d else none

/-- `strptime(s, "%d-%b-%y")`. -/
def parseDby (s : String) : Option PDate := do
  let (d, r1) ← pDay s.data
  let r2 ← pLit '-' r1
  let (m, r3) ← pMonthName monthsAbbr r2
  let r4 ← pLit '-' r3
  let (y, r5) ← pYear2 r4
  if r5 = [] then mkDate y m d else none

/-- `get_most_recent_attendance` lines 182-189: the fixed format list, tried
in order; the first format that parses determines the header's date. -/
def dateFormatList : List (String → Option PDate) :=
  [parseYmdDash, parseMdySlash, parseDmySlash, parseYmdSlash, parseBdY, parseDbY, parseDby]

def parseHeaderDate (s : String) : Option PDate :=
  dateFormatList.findSome? (fun f => f s)

/-- `get_most_recent_attendance` lines 174-189: the `(index, header, date)`
triples of the parseable non-empty headers at column indices `≥ 2`, in column
order. -/
def dateColumnsFrom : List String → Nat → List (Nat × String × PDate)
  | [], _ => []
  | h :: rest, i =>
    let tail := dateColumnsFrom rest (i + 1)
    if i < 2 then tail
    else
      let hc := pyStrip h
      if hc = "" then tail
      else
        match parseHeaderDate hc with
        | some d => (i, hc, d) :: tail
        | none => tail

def dateColumns (header : List String) : List (Nat × String × PDate) :=
  dateColumnsFrom header 0

/-- Stable descending insertion by date (the effect of
`date_columns.sort(key=lambda x: x[2], reverse=True)`, which is a stable
sort: elements with equal dates keep their original order). -/
def insertByDateDesc (x : Nat × String × PDate) :
    List (Nat × String × PDate) → List (Nat × String × PDate)
  | [] => [x]
  | y :: ys => if PDate.ltb x.2.2 y.2.2 then y :: insertByDateDesc x ys else x :: y :: ys

def sortByDateDesc (l : List (Nat × String × PDate)) : List (Nat × String × PDate) :=
  l.foldr insertByDateDesc []

/-- `get_most_recent_attendance` lines 191-197: the most recent date column,
as `(index, header string, parsed date)`, if any header parses. -/
def mostRecentCol (header : List String) : Option (Nat × String × PDate) :=
  (sortByDateDesc (dateColumns header)).head?

/-! ### The read operations and the file parser -/

/-- `get_attendance_for_date` / `get_most_recent_attendance` lines 126-137 and
203-214: the status read from a data row at the date column. -/
def statusCell (row : List String) (c : Nat) : String :=
  if c < row.length then
    if cellAt row c = "" then "Not Present" else pyStrip (cellAt row c)
  else "Not Present"

/-- Python dict assignment `d[k] = v` on an insertion-ordered dict. -/
def dictSet (d : List (String × String)) (k v : String) : List (String × String) :=
  if d.any (fun p => p.1 == k) then d.map (fun p => if p.1 == k then (k, v) else p)
  else d ++ [(k, v)]

/-- The name → status mapping read off the grid at one date column
(duplicate names: the later row wins, as with a Python dict). -/
def gridAttendanceAt (g : Grid) (dateCol : Nat) : List (String × String) :=
  (g.drop 1).foldl
    (fun d row => if rowName row = "" then d else dictSet d (rowName row) (statusCell row dateCol))
    []

/-- Model of `AttendanceService.get_attendance_for_date` (lines 88-144).
`fetch` is the outcome of the sheet read inside the `try` block; any
exception is caught and the empty mapping returned (lines 140-144). -/
def getAttendanceForDate (fetch : Except String Grid) (date : String) :
    List (String × String) :=
  match fetch with
  | .error _ => []
  | .ok g =>
    if g = [] then []
    else
      match findDateCol (headerOf g) date with
      | none => []
      | some i => gridAttendanceAt g i

/-- Model of `AttendanceService.get_most_recent_attendance` (lines 146-221).
Any exception is caught and `({}, "")` returned (lines 217-221). -/
def getMostRecentAttendance (fetch : Except String Grid) :
    List (String × String) × String :=
  match fetch with
  | .error _ => ([], "")
  | .ok g =>
    if g = [] then ([], "")
    else
      match mostRecentCol (headerOf g) with
      | none => ([], "")
      | some (i, s, _) => (gridAttendanceAt g i, s)

structure Member where
  name : String
  address : String
deriving Repr, DecidableEq

/-- Python `or` on strings: the empty string is falsy. -/
def pyOr (a b : String) : String := if a = "" then b else a

/-- `get_members` record field access `record.get(k, '')`. -/
def recordGet (rec : List (String × String)) (k : String) : String :=
  ((rec.find? (fun p => p.1 == k)).map Prod.snd).getD ""

/-- `get_members` lines 60-69: extract one member from a header-keyed record. -/
def memberOfRecord (rec : List (String × String)) : Option Member :=
  let name :=
    if rec = [] then ""
    else pyOr (recordGet rec "Name") (pyOr (recordGet rec "name") rec.headI.2)
  let address :=
    pyOr (recordGet rec "How to Address")
      (pyOr (recordGet rec "how_to_address") (pyOr (recordGet rec "Address") name))
  if name = "" then none else some ⟨name, pyOr address name⟩

/-- Model of `AttendanceService.get_members` (lines 43-86).  `fetch` carries
the record list from `get_all_records` and the raw grid used by the
column-A fallback; any exception in the `try` block is caught and the empty
list returned (lines 83-86). -/
def getMembers (fetch : Except String (List (List (String × String)) × Grid)) :
    List Member :=
  match fetch with
  | .error _ => []
  | .ok (records, allValues) =>
    let members := records.filterMap memberOfRecord
    if members = [] then
      (allValues.drop 1).filterMap
        (fun row => if row ≠ [] ∧ row.headI ≠ "" then some ⟨row.headI, row.headI⟩ else none)
    else members

/-- Model of the `submit_attendance` operation seen from the caller: an
exception from the sheet read, or the empty-sheet `ValueError`, is re-raised
(lines 337-341). -/
def submitAttendanceOp (fetch : Except String Grid) (date : String)
    (att : List (String × String)) : Except String Grid :=
  match fetch with
  | .error e => .error e
  | .ok g =>
    match submitAttendance date att g with
    | none => .error "Attendance sheet is empty"
    | some g' => .ok g'

/-! ### `parse_attendance_file` (lines 343-442)

The loaded `DataFrame` is a list of rows of cells; a missing value (pandas
`NaN`, e.g. an empty CSV field) is `none`.  `str(cell)` of a missing value is
the string `"nan"`. -/

abbrev DataFrame := List (List (Option String))

/-- `str(row.iloc[0]).strip() if pd.notna(...) else ""` (line 383). -/
def cellNameStr (c : Option String) : String :=
  match c with
  | none => ""
  | some s => pyStrip s

/-- `str(row.iloc[col]).strip().lower() if pd.notna(...) else ""` (line 409). -/
def cellTickStr (c : Option String) : String :=
  match c with
  | none => ""
  | some s => pyLower (pyStrip s)

/-- `df.iloc[0].astype(str).str.lower().str.strip()` (line 374): `astype(str)`
renders a missing value as `"nan"`. -/
def cellHeaderStr (c : Option String) : String :=
  match c with
  | none => "nan"
  | some s => pyStrip (pyLower s)

/-- Lines 373-376: the first row is a header iff its cells, lower-cased and
joined with spaces, contain one of the keyword tokens. -/
def hasHeaderRow (df : DataFrame) : Bool :=
  let joined := String.intercalate " " (df.headI.map cellHeaderStr)
  ["name", "member", "person", "attendee"].any (fun k => containsSubstr joined k)

/-- Line 385: names that are skipped entirely. -/
def nameSkipped (name : String) : Bool :=
  name = "" ∨ pyLower name = "nan" ∨ pyLower name = "none"

/-- Line 403: the tick indicator set (the checkmark appears twice in the
source list). -/
def tickIndicators : List String :=
  ["✓", "✔", "☑", "✓", "x", "yes", "y", "1", "p", "present", "√", "true", "t"]

/-- Line 420: the checkmark glyphs checked a second time. -/
def checkGlyphs : List String := ["✓", "✔", "☑", "√"]

/-- Lines 408-422: a cell witnesses presence if it is non-empty, not `"nan"`,
and contains a tick indicator or a checkmark glyph. -/
def cellHasTick (c : Option String) : Bool :=
  let v := cellTickStr c
  if v = "" ∨ v = "nan" then false
  else
    tickIndicators.any (fun ind => containsSubstr v ind) ||
      checkGlyphs.any (fun ch => containsSubstr v ch)

/-- Lines 379-433: process one row, threading `seen_names_lower` (first
component) and `attendance_dict` (second component).  At the final update the
key `name_lower` is always present in `seen_names_lower`, so only the first
branch of the source's last `if` is reachable; its guard tests the
*lower-cased* name against the dict keyed by *original-cased* names. -/
def parseRowStep (st : List (String × String) × List (String × String))
    (row : List (Option String)) :
    List (String × String) × List (String × String) :=
  let name := cellNameStr (row.getD 0 none)
  if nameSkipped name then st
  else
    let nameNorm := pyStrip name
    let nameLower := pyLower nameNorm
    let seen :=
      if st.1.any (fun p => p.1 == nameLower) then st.1 else st.1 ++ [(nameLower, nameNorm)]
    let isPresent := (row.drop 1).any cellHasTick
    let original := (((seen.find? (fun p => p.1 == nameLower)).map Prod.snd).getD nameNorm)
    let dict :=
      if isPresent || !(st.2.any (fun p => p.1 == nameLower)) then
        dictSet st.2 original (if isPresent then "Present" else "Not Present")
      else st.2
    (seen, dict)

/-- Filename extension checks (lines 351-352). -/
def isExcelName (filename : String) : Bool :=
  strEndsWith (pyLower filename) ".xlsx" || strEndsWith (pyLower filename) ".xls"

def isCsvName (filename : String) : Bool := strEndsWith (pyLower filename) ".csv"

/-- Model of `AttendanceService.parse_attendance_file` (lines 343-442).
`content` is the outcome of loading the bytes into a grid; a load failure, an
unsupported extension, and an empty frame are all raised (and re-raised by
the outer handler, lines 438-442). -/
def parseAttendanceFile (content : Except String DataFrame) (filename : String) :
    Except String (List (String × String)) :=
  if ¬ (isExcelName filename ∨ isCsvName filename) then
    .error "Unsupported file type. Please upload Excel (.xlsx, .xls) or CSV (.csv) file."
  else
    match content with
    | .error e => .error e
    | .ok df =>
      if df = [] then .error "File is empty"
      else
        let startRow := if hasHeaderRow df then 1 else 0
        .ok ((df.drop startRow).foldl parseRowStep ([], [])).2

/-! ## Basic lemmas about cells and writes -/

theorem cellAt_append_replicate (row : List String) (k c : Nat) :
    cellAt (row ++ List.replicate k "") c = cellAt row c := by
  simp only [cellAt, List.getD_eq_getElem?_getD, List.getElem?_append, List.getElem?_replicate]
  by_cases h : c < row.length
  · simp [h]
  · simp only [h, if_false]
    rw [List.getElem?_eq_none (by omega)]
    by_cases h2 : c - row.length < k <;> simp [h2]

theorem setCellRow_length (row : List String) (c : Nat) (v : String) :
    (setCellRow row c v).length = max row.length (c + 1) := by
  simp only [setCellRow, List.length_set, List.length_append, List.length_replicate]
  omega

theorem cellAt_setCellRow_self (row : List String) (c : Nat) (v : String) :
    cellAt (setCellRow row c v) c = v := by
  simp only [setCellRow, cellAt, List.getD_eq_getElem?_getD]
  rw [List.getElem?_set_self (by simp [List.length_append, List.length_replicate]; omega)]
  rfl

theorem cellAt_setCellRow_ne (row : List String) (c : Nat) (v : String) (j : Nat)
    (h : j ≠ c) : cellAt (setCellRow row c v) j = cellAt row j := by
  simp only [setCellRow]
  calc cellAt ((row ++ List.replicate (c + 1 - row.length) "").set c v) j
      = cellAt (row ++ List.replicate (c + 1 - row.length) "") j := by
        simp only [cellAt, List.getD_eq_getElem?_getD]
        rw [List.getElem?_set_ne (Ne.symm h)]
    _ = cellAt row j := cellAt_append_replicate ..

theorem setCellRow_eq_self (row : List String) (c : Nat) (v : String)
    (hc : c < row.length) (hv : cellAt row c = v) : setCellRow row c v = row := by
  have hz : c + 1 - row.length = 0 := by omega
  simp only [setCellRow, hz, List.replicate_zero, List.append_nil]
  apply List.ext_getElem?
  intro j
  rcases eq_or_ne c j with rfl | hne
  · rw [List.getElem?_set_self hc]
    simp only [cellAt, List.getD_eq_getElem?_getD] at hv
    rw [List.getElem?_eq_getElem hc] at hv ⊢
    simp at hv
    simp [hv]
  · rw [List.getElem?_set_ne hne]

theorem rowAt_append_replicate (g : Grid) (k r : Nat) (h : r < g.length) :
    rowAt (g ++ List.replicate k ([] : List String)) r = rowAt g r := by
  simp only [rowAt, List.getD_eq_getElem?_getD, List.getElem?_append]
  simp [h]

theorem setCell_length (g : Grid) (r c : Nat) (v : String) :
    (setCell g r c v).length = max g.length (r + 1) := by
  simp only [setCell, List.length_set, List.length_append, List.length_replicate]
  omega

theorem rowAt_setCell_self (g : Grid) (r c : Nat) (v : String) :
    rowAt (setCell g r c v) r = setCellRow (rowAt g r) c v := by
  have hlen : r < (g ++ List.replicate (r + 1 - g.length) ([] : List String)).length := by
    simp only [List.length_append, List.length_replicate]; omega
  simp only [setCell, rowAt, List.getD_eq_getElem?_getD]
  rw [List.getElem?_set_self hlen]
  have : (g ++ List.replicate (r + 1 - g.length) ([] : List String))[r]?.getD [] =
      g.getD r [] := by
    simp only [List.getElem?_append, List.getElem?_replicate, List.getD_eq_getElem?_getD]
    by_cases h : r < g.length
    · simp [h]
    · simp only [h, if_false]
      rw [List.getElem?_eq_none (by omega)]
      by_cases h2 : r - g.length < r + 1 - g.length <;> simp [h2]
  simp only [Option.getD_some]
  rw [List.getD_eq_getElem?_getD] at this
  rw [this]

theorem rowAt_setCell_ne (g : Grid) (r c : Nat) (v : String) (r' : Nat) (h : r' ≠ r) :
    rowAt (setCell g r c v) r' = rowAt g r' := by
  simp only [setCell, rowAt, List.getD_eq_getElem?_getD]
  rw [List.getElem?_set_ne (Ne.symm h)]
  simp only [List.getElem?_append, List.getElem?_replicate]
  by_cases hh : r' < g.length
  · simp [hh]
  · simp only [hh, if_false]
    rw [List.getElem?_eq_none (by omega)]
    by_cases h2 : r' - g.length < r + 1 - g.length <;> simp [h2]

theorem getCell_setCell_self (g : Grid) (r c : Nat) (v : String) :
    getCell (setCell g r c v) r c = v := by
  rw [getCell, rowAt_setCell_self, cellAt_setCellRow_self]

theorem getCell_setCell_row_ne (g : Grid) (r c : Nat) (v : String) (r' c' : Nat)
    (h : r' ≠ r) : getCell (setCell g r c v) r' c' = getCell g r' c' := by
  rw [getCell, rowAt_setCell_ne _ _ _ _ _ h, getCell]

theorem getCell_setCell_col_ne (g : Grid) (r c : Nat) (v : String) (r' c' : Nat)
    (h : c' ≠ c) : getCell (setCell g r c v) r' c' = getCell g r' c' := by
  rcases eq_or_ne r' r with rfl | hr
  · rw [getCell, rowAt_setCell_self, cellAt_setCellRow_ne _ _ _ _ h, getCell]
  · exact getCell_setCell_row_ne _ _ _ _ _ _ hr

theorem setCell_eq_self (g : Grid) (r c : Nat) (v : String) (hr : r < g.length)
    (hc : c < (rowAt g r).length) (hv : getCell g r c = v) : setCell g r c v = g := by
  have hz : r + 1 - g.length = 0 := by omega
  simp only [setCell, hz, List.replicate_zero, List.append_nil]
  have : g.getD r [] = rowAt g r := rfl
  rw [this, setCellRow_eq_self _ _ _ hc hv]
  apply List.ext_getElem?
  intro j
  rcases eq_or_ne r j with rfl | hne
  · rw [List.getElem?_set_self hr]
    rw [List.getElem?_eq_getElem hr]
    simp [rowAt, List.getD_eq_getElem?_getD, List.getElem?_eq_getElem hr]
  · rw [List.getElem?_set_ne hne]

/-! ## Lemmas about date-column resolution -/

theorem cellAt_cons_succ (a : String) (l : List String) (m : Nat) :
    cellAt (a :: l) (m + 1) = cellAt l m := rfl

theorem cellAt_cons_zero (a : String) (l : List String) : cellAt (a :: l) 0 = a := rfl

theorem cellAt_drop (l : List String) (n m : Nat) :
    cellAt (l.drop n) m = cellAt l (n + m) := by
  simp [cellAt, List.getD_eq_getElem?_getD, List.getElem?_drop]

theorem findDateColAux_eq_some (date : String) (l : List String) (i j : Nat)
    (h : findDateColAux date l i = some j) :
    i ≤ j ∧ j - i < l.length ∧ 2 ≤ j ∧ pyStrip (cellAt l (j - i)) = date ∧
      ∀ k, i ≤ k → k < j → ¬(2 ≤ k ∧ pyStrip (cellAt l (k - i)) = date) := by
  induction l generalizing i with
  | nil => cases h
  | cons a rest ih =>
    rw [findDateColAux] at h
    split at h
    case isTrue hmatch =>
      cases h
      refine ⟨le_refl _, by simp, hmatch.1, by simpa using hmatch.2,
        fun k hk1 hk2 _ => absurd hk1 (by omega)⟩
    case isFalse hmatch =>
      obtain ⟨h1, h2, h3, h4, h5⟩ := ih (i + 1) h
      have hji : j - i = (j - (i + 1)) + 1 := by omega
      refine ⟨by omega, by simp only [List.length_cons]; omega, h3, ?_, ?_⟩
      · rw [hji, cellAt_cons_succ]
        exact h4
      · rintro k hk1 hk2 ⟨hk3, hk4⟩
        rcases eq_or_lt_of_le hk1 with rfl | hlt
        · rw [Nat.sub_self, cellAt_cons_zero] at hk4
          exact hmatch ⟨hk3, hk4⟩
        · have hki : k - i = (k - (i + 1)) + 1 := by omega
          rw [hki, cellAt_cons_succ] at hk4
          exact h5 k (by omega) hk2 ⟨hk3, hk4⟩

theorem findDateColAux_eq_none (date : String) (l : List String) (i : Nat)
    (h : findDateColAux date l i = none) :
    ∀ k, i ≤ k → k < i + l.length → ¬(2 ≤ k ∧ pyStrip (cellAt l (k - i)) = date) := by
  induction l generalizing i with
  | nil =>
    intro k hk1 hk2
    rw [List.length_nil] at hk2
    exact absurd hk2 (by omega)
  | cons a rest ih =>
    rw [findDateColAux] at h
    split at h
    case isTrue hmatch => cases h
    case isFalse hmatch =>
      rintro k hk1 hk2 ⟨hk3, hk4⟩
      rcases eq_or_lt_of_le hk1 with rfl | hlt
      · rw [Nat.sub_self, cellAt_cons_zero] at hk4
        exact hmatch ⟨hk3, hk4⟩
      · have hki : k - i = (k - (i + 1)) + 1 := by omega
        rw [hki, cellAt_cons_succ] at hk4
        exact ih (i + 1) h k (by omega) (by simp only [List.length_cons] at hk2; omega)
          ⟨hk3, hk4⟩

theorem findDateCol_eq_some (header : List String) (date : String) (j : Nat)
    (h : findDateCol header date = some j) :
    j < header.length ∧ 2 ≤ j ∧ pyStrip (cellAt header j) = date ∧
      ∀ k, k < j → ¬(2 ≤ k ∧ pyStrip (cellAt header k) = date) := by
  obtain ⟨_, h2, h3, h4, h5⟩ := findDateColAux_eq_some date header 0 j h
  simp only [Nat.sub_zero] at h2 h4
  refine ⟨h2, h3, h4, fun k hk => ?_⟩
  simpa using h5 k (Nat.zero_le k) hk

theorem findDateCol_eq_none (header : List String) (date : String)
    (h : findDateCol header date = none) :
    ∀ k, k < header.length → ¬(2 ≤ k ∧ pyStrip (cellAt header k) = date) := by
  intro k hk
  simpa using findDateColAux_eq_none date header 0 h k (Nat.zero_le k) (by omega)

theorem findDateCol_eq_some_of (header : List String) (date : String) (j : Nat)
    (hj : j < header.length) (h2 : 2 ≤ j) (hm : pyStrip (cellAt header j) = date)
    (hmin : ∀ k, k < j → ¬(2 ≤ k ∧ pyStrip (cellAt header k) = date)) :
    findDateCol header date = some j := by
  cases hfd : findDateCol header date with
  | none => exact absurd ⟨h2, hm⟩ (findDateCol_eq_none header date hfd j hj)
  | some j' =>
    obtain ⟨h2', h3', h4', h5'⟩ := findDateCol_eq_some header date j' hfd
    rcases lt_trichotomy j' j with hlt | rfl | hgt
    · exact absurd ⟨h3', h4'⟩ (hmin j' hlt)
    · rfl
    · exact absurd ⟨h2, hm⟩ (h5' j hgt)

theorem firstEmptyColAux_eq_some (l : List String) (i j : Nat)
    (h : firstEmptyColAux l i = some j) :
    i ≤ j ∧ j - i < l.length ∧ pyStrip (cellAt l (j - i)) = "" ∧
      ∀ k, i ≤ k → k < j → pyStrip (cellAt l (k - i)) ≠ "" := by
  induction l generalizing i with
  | nil => cases h
  | cons a rest ih =>
    rw [firstEmptyColAux] at h
    split at h
    case isTrue hmatch =>
      cases h
      exact ⟨le_refl _, by simp, by simpa using hmatch,
        fun k hk1 hk2 => absurd hk1 (by omega)⟩
    case isFalse hmatch =>
      obtain ⟨h1, h2, h3, h4⟩ := ih (i + 1) h
      have hji : j - i = (j - (i + 1)) + 1 := by omega
      refine ⟨by omega, by simp only [List.length_cons]; omega, ?_, ?_⟩
      · rw [hji, cellAt_cons_succ]
        exact h3
      · intro k hk1 hk2
        rcases eq_or_lt_of_le hk1 with rfl | hlt
        · rw [Nat.sub_self, cellAt_cons_zero]
          exact hmatch
        · have hki : k - i = (k - (i + 1)) + 1 := by omega
          rw [hki, cellAt_cons_succ]
          exact h4 k (by omega) hk2

theorem firstEmptyColAux_eq_none (l : List String) (i : Nat)
    (h : firstEmptyColAux l i = none) :
    ∀ k, i ≤ k → k < i + l.length → pyStrip (cellAt l (k - i)) ≠ "" := by
  induction l generalizing i with
  | nil =>
    intro k hk1 hk2
    rw [List.length_nil] at hk2
    exact absurd hk2 (by omega)
  | cons a rest ih =>
    rw [firstEmptyColAux] at h
    split at h
    case isTrue hmatch => cases h
    case isFalse hmatch =>
      intro k hk1 hk2
      rcases eq_or_lt_of_le hk1 with rfl | hlt
      · rw [Nat.sub_self, cellAt_cons_zero]
        exact hmatch
      · have hki : k - i = (k - (i + 1)) + 1 := by omega
        rw [hki, cellAt_cons_succ]
        exact ih (i + 1) h k (by omega) (by simp only [List.length_cons] at hk2; omega)

/-- Characterization of the creation position: either the first blank header
cell at index `≥ 1`, or one past the end of the header row. -/
theorem newDateCol_spec (header : List String) :
    (1 ≤ newDateCol header ∧ newDateCol header < header.length ∧
      pyStrip (cellAt header (newDateCol header)) = "" ∧
      ∀ k, 1 ≤ k → k < newDateCol header → pyStrip (cellAt header k) ≠ "") ∨
    (newDateCol header = header.length ∧
      ∀ k, 1 ≤ k → k < header.length → pyStrip (cellAt header k) ≠ "") := by
  rw [newDateCol]
  cases hfe : firstEmptyColAux (header.drop 1) 1 with
  | none =>
    refine Or.inr ⟨rfl, fun k hk1 hk2 => ?_⟩
    have := firstEmptyColAux_eq_none (header.drop 1) 1 hfe k hk1
      (by simp only [List.length_drop]; omega)
    rwa [cellAt_drop, Nat.add_sub_cancel' hk1] at this
  | some p =>
    obtain ⟨h1, h2, h3, h4⟩ := firstEmptyColAux_eq_some (header.drop 1) 1 p hfe
    simp only [Option.getD_some]
    rw [List.length_drop] at h2
    refine Or.inl ⟨h1, by omega, ?_, fun k hk1 hk2 => ?_⟩
    · rw [cellAt_drop, Nat.add_sub_cancel' h1] at h3
      exact h3
    · have := h4 k hk1 hk2
      rwa [cellAt_drop, Nat.add_sub_cancel' hk1] at this

/-- The column picked for a new date key is never the name column, provided
the name-column header cell is non-blank and the header row extends past it. -/
theorem newDateCol_ge_two (header : List String) (hlen : 2 ≤ header.length)
    (hname : pyStrip (cellAt header 1) ≠ "") : 2 ≤ newDateCol header := by
  rcases newDateCol_spec header with ⟨h1, _, h3, _⟩ | ⟨h1, _⟩
  · rcases eq_or_lt_of_le h1 with he | hlt
    · rw [← he] at h3
      exact absurd h3 hname
    · omega
  · omega

theorem newDateCol_le_length (header : List String) :
    newDateCol header ≤ header.length := by
  rcases newDateCol_spec header with ⟨_, h2, _, _⟩ | ⟨h1, _⟩ <;> omega

/-! ## Lemmas about the name list -/

theorem rowName_setCellRow (row : List String) (c : Nat) (v : String) (h : c ≠ 1) :
    rowName (setCellRow row c v) = rowName row := by
  rw [rowName, cellAt_setCellRow_ne _ _ _ _ (by omega), rowName]

theorem nameEntry_setCellRow (row : List String) (c : Nat) (v : String) (h : c ≠ 1) :
    nameEntry (setCellRow row c v) = nameEntry row := by
  rw [nameEntry, nameEntry, rowName_setCellRow _ _ _ h]

theorem filterMap_nameEntry_set (l : List (List String)) (i : Nat) (row' : List String)
    (h : nameEntry row' = nameEntry (l.getD i [])) :
    (l.set i row').filterMap nameEntry = l.filterMap nameEntry := by
  induction l generalizing i with
  | nil => simp
  | cons a t ih =>
    cases i with
    | zero =>
      simp only [List.set_cons_zero, List.filterMap_cons, List.getD_cons_zero] at h ⊢
      rw [h]
    | succ n =>
      simp only [List.set_cons_succ, List.filterMap_cons, List.getD_cons_succ] at h ⊢
      rw [ih n h]

theorem filterMap_nameEntry_append_empty (l : List (List String)) (k : Nat) :
    (l ++ List.replicate k ([] : List String)).filterMap nameEntry = l.filterMap nameEntry := by
  rw [List.filterMap_append]
  have : (List.replicate k ([] : List String)).filterMap nameEntry = [] := by
    rw [List.filterMap_eq_nil_iff]
    intro a ha
    rw [List.eq_of_mem_replicate ha]
    decide
  rw [this, List.append_nil]

theorem namesOf_append_empty (g : Grid) (k : Nat) :
    namesOf (g ++ List.replicate k ([] : List String)) = namesOf g := by
  cases g with
  | nil =>
    simp only [List.nil_append, namesOf, List.drop_nil, List.filterMap_nil]
    cases k with
    | zero => simp
    | succ n =>
      rw [List.replicate_succ, List.drop_one, List.tail_cons, List.filterMap_eq_nil_iff]
      intro a ha
      rw [List.eq_of_mem_replicate ha]
      decide
  | cons a t =>
    rw [namesOf, namesOf, List.cons_append, List.drop_one, List.drop_one, List.tail_cons,
      List.tail_cons, filterMap_nameEntry_append_empty]

theorem namesOf_setCell (g : Grid) (r c : Nat) (v : String) (h : r = 0 ∨ c ≠ 1) :
    namesOf (setCell g r c v) = namesOf g := by
  show namesOf ((g ++ List.replicate (r + 1 - g.length) []).set r
      (setCellRow ((g ++ List.replicate (r + 1 - g.length) []).getD r []) c v)) = namesOf g
  have hpad : namesOf (g ++ List.replicate (r + 1 - g.length) ([] : List String)) =
      namesOf g := namesOf_append_empty g _
  by_cases hr0 : r = 0
  · subst hr0
    rw [namesOf, List.drop_set, if_pos (by omega)]
    exact hpad
  · rcases h with rfl | hc
    · exact absurd rfl hr0
    · have hnlt : ¬ r < 1 := by omega
      have hr1 : 1 + (r - 1) = r := by omega
      rw [namesOf, List.drop_set, if_neg hnlt, filterMap_nameEntry_set]
      · exact hpad
      · rw [nameEntry_setCellRow _ _ _ hc]
        congr 1
        simp only [List.getD_eq_getElem?_getD, List.getElem?_drop, hr1]

/-! ## Lemmas about the status-writing loop -/

theorem writeStatuses_rowAt_lt (att : List (String × String)) (c : Nat) (g : Grid)
    (names : List String) (r r' : Nat) (h : r' < r) :
    rowAt (writeStatuses att c g names r) r' = rowAt g r' := by
  induction names generalizing g r with
  | nil => rfl
  | cons n ns ih =>
    rw [writeStatuses, ih _ (r + 1) (by omega), rowAt_setCell_ne _ _ _ _ _ (by omega)]

theorem writeStatuses_rowAt_ge (att : List (String × String)) (c : Nat) (g : Grid)
    (names : List String) (r r' : Nat) (h : r + names.length ≤ r') :
    rowAt (writeStatuses att c g names r) r' = rowAt g r' := by
  induction names generalizing g r with
  | nil => rfl
  | cons n ns ih =>
    rw [List.length_cons] at h
    rw [writeStatuses, ih _ (r + 1) (by omega), rowAt_setCell_ne _ _ _ _ _ (by omega)]

theorem writeStatuses_rowAt_written (att : List (String × String)) (c : Nat) (g : Grid)
    (names : List String) (r k : Nat) (hk : k < names.length) :
    rowAt (writeStatuses att c g names r) (r + k) =
      setCellRow (rowAt g (r + k)) c (statusFor att (names.getD k "")) := by
  induction names generalizing g r k with
  | nil => simp at hk
  | cons n ns ih =>
    cases k with
    | zero =>
      rw [writeStatuses, writeStatuses_rowAt_lt _ _ _ _ _ _ (by omega), Nat.add_zero,
        rowAt_setCell_self]
      rfl
    | succ m =>
      rw [List.length_cons] at hk
      have harith : r + (m + 1) = (r + 1) + m := by omega
      rw [writeStatuses, harith, ih _ (r + 1) m (by omega),
        rowAt_setCell_ne _ _ _ _ _ (by omega)]
      rfl

theorem writeStatuses_length (att : List (String × String)) (c : Nat) (g : Grid)
    (names : List String) (r : Nat) (h : r + names.length ≤ g.length) :
    (writeStatuses att c g names r).length = g.length := by
  induction names generalizing g r with
  | nil => rfl
  | cons n ns ih =>
    rw [List.length_cons] at h
    rw [writeStatuses, ih _ (r + 1) (by rw [setCell_length]; omega), setCell_length]
    omega

theorem writeStatuses_eq_self (att : List (String × String)) (c : Nat) (g : Grid)
    (names : List String) (r : Nat)
    (h : ∀ k, k < names.length → r + k < g.length ∧ c < (rowAt g (r + k)).length ∧
      getCell g (r + k) c = statusFor att (names.getD k "")) :
    writeStatuses att c g names r = g := by
  induction names generalizing r with
  | nil => rfl
  | cons n ns ih =>
    have h0 := h 0 (by simp)
    rw [Nat.add_zero] at h0
    simp only [List.getD_cons_zero] at h0
    rw [writeStatuses, setCell_eq_self _ _ _ _ h0.1 h0.2.1 h0.2.2]
    apply ih
    intro k hk
    have := h (k + 1) (by simp only [List.length_cons]; omega)
    have harith : r + (k + 1) = (r + 1) + k := by omega
    rw [harith] at this
    exact this

theorem writeStatuses_headerOf (att : List (String × String)) (c : Nat) (g : Grid)
    (names : List String) :
    headerOf (writeStatuses att c g names 1) = headerOf g :=
  writeStatuses_rowAt_lt att c g names 1 0 (by omega)

/-! ## Lemmas about appending new members -/

theorem setCell_append_new (g : Grid) (c : Nat) (v : String) :
    setCell g g.length c v = g ++ [setCellRow [] c v] := by
  show (g ++ List.replicate (g.length + 1 - g.length) []).set g.length
      (setCellRow ((g ++ List.replicate (g.length + 1 - g.length) []).getD g.length []) c v) =
    g ++ [setCellRow [] c v]
  have h1 : g.length + 1 - g.length = 1 := by omega
  rw [h1, List.replicate_one]
  have h2 : (g ++ [([] : List String)]).getD g.length [] = [] := by
    rw [List.getD_eq_getElem?_getD, List.getElem?_append_right (le_refl _), Nat.sub_self]
    rfl
  rw [h2, List.set_append, if_neg (by omega), Nat.sub_self]
  rfl

theorem setCell_append_existing (g : Grid) (row : List String) (c : Nat) (v : String) :
    setCell (g ++ [row]) g.length c v = g ++ [setCellRow row c v] := by
  show ((g ++ [row]) ++ List.replicate (g.length + 1 - (g ++ [row]).length) []).set g.length
      (setCellRow (((g ++ [row]) ++
        List.replicate (g.length + 1 - (g ++ [row]).length) []).getD g.length []) c v) =
    g ++ [setCellRow row c v]
  have h1 : g.length + 1 - (g ++ [row]).length = 0 := by
    simp only [List.length_append, List.length_cons, List.length_nil]
    omega
  rw [h1, List.replicate_zero, List.append_nil]
  have h2 : (g ++ [row]).getD g.length [] = row := by
    rw [List.getD_eq_getElem?_getD, List.getElem?_append_right (le_refl _), Nat.sub_self]
    rfl
  rw [h2, List.set_append, if_neg (by omega), Nat.sub_self]
  rfl

theorem appendMembers_closed (dateCol : Nat) (members : List (String × String))
    (ex : List String) (g : Grid)
    (hdisj : ∀ p ∈ members, ¬ ex.contains (pyLower p.1) = true)
    (hpw : members.Pairwise (fun p q => pyLower p.1 ≠ pyLower q.1)) :
    appendMembers dateCol members ex g.length g = g ++ members.map (memberRow dateCol) := by
  induction members generalizing ex g with
  | nil => simp [appendMembers]
  | cons p rest ih =>
    rw [appendMembers, if_neg (hdisj p (List.mem_cons_self p rest)),
      setCell_append_new, setCell_append_existing]
    have hlen : g.length + 1 = (g ++ [setCellRow (setCellRow [] 1 p.1) dateCol p.2]).length := by
      simp
    rw [hlen, ih]
    · simp [memberRow]
    · intro q hq
      simp only [List.contains_cons, Bool.or_eq_true, beq_iff_eq]
      push_neg
      constructor
      · exact fun he => (List.pairwise_cons.mp hpw).1 q hq he.symm
      · exact fun hc => hdisj q (List.mem_cons_of_mem p hq) hc
    · exact (List.pairwise_cons.mp hpw).2

theorem namesOf_append (g : Grid) (rows : List (List String)) (hg : g ≠ []) :
    namesOf (g ++ rows) = namesOf g ++ rows.filterMap nameEntry := by
  cases g with
  | nil => exact absurd rfl hg
  | cons a t =>
    rw [namesOf, namesOf, List.cons_append, List.drop_one, List.drop_one, List.tail_cons,
      List.tail_cons, List.filterMap_append]

theorem rowName_memberRow (dateCol : Nat) (p : String × String) (h : dateCol ≠ 1) :
    rowName (memberRow dateCol p) = pyStrip p.1 := by
  rw [memberRow, rowName, cellAt_setCellRow_ne _ _ _ _ (Ne.symm h), cellAt_setCellRow_self]

theorem memberRow_length (dateCol : Nat) (p : String × String) (h : 2 ≤ dateCol) :
    (memberRow dateCol p).length = dateCol + 1 := by
  rw [memberRow, setCellRow_length, setCellRow_length]
  simp only [List.length_nil]
  omega

theorem cellAt_memberRow_dateCol (dateCol : Nat) (p : String × String) :
    cellAt (memberRow dateCol p) dateCol = p.2 := cellAt_setCellRow_self _ _ _

/-! ## Lemmas about the most-recent-date selection -/

theorem PDate.ltb_iff (a b : PDate) :
    PDate.ltb a b = true ↔
      (a.year < b.year ∨ (a.year = b.year ∧ a.month < b.month) ∨
        (a.year = b.year ∧ a.month = b.month ∧ a.day < b.day)) := by
  rw [PDate.ltb]
  split_ifs with h1 h2 <;> simp_all

theorem PDate.ltb_irrefl (a : PDate) : PDate.ltb a a = false := by
  rw [← Bool.not_eq_true, PDate.ltb_iff]
  omega

theorem PDate.ltb_asymm (a b : PDate) (h : PDate.ltb a b = true) :
    PDate.ltb b a = false := by
  rw [PDate.ltb_iff] at h
  rw [← Bool.not_eq_true, PDate.ltb_iff]
  omega

theorem PDate.not_ltb_trans (a b c : PDate) (hab : PDate.ltb a b = false)
    (hbc : PDate.ltb b c = false) : PDate.ltb a c = false := by
  rw [← Bool.not_eq_true, PDate.ltb_iff] at hab hbc ⊢
  omega

theorem insertByDateDesc_head (x : Nat × String × PDate) (l : List (Nat × String × PDate)) :
    (insertByDateDesc x l).head? =
      some (match l.head? with
            | none => x
            | some y => if PDate.ltb x.2.2 y.2.2 then y else x) := by
  cases l with
  | nil => rfl
  | cons y ys =>
    rw [insertByDateDesc]
    split_ifs with h <;> simp [h]

theorem foldr_insertByDateDesc_length (l : List (Nat × String × PDate)) :
    (sortByDateDesc l).length = l.length := by
  induction l with
  | nil => rfl
  | cons a t ih =>
    rw [sortByDateDesc, List.foldr_cons]
    have : ∀ (x : Nat × String × PDate) (m : List (Nat × String × PDate)),
        (insertByDateDesc x m).length = m.length + 1 := by
      intro x m
      induction m with
      | nil => rfl
      | cons y ys ihm =>
        rw [insertByDateDesc]
        split_ifs <;> simp_all
    rw [this, ← sortByDateDesc, ih, List.length_cons]

theorem sortByDateDesc_head_max (l : List (Nat × String × PDate))
    (x : Nat × String × PDate) (hx : (sortByDateDesc l).head? = some x) :
    ∀ y ∈ l, PDate.ltb x.2.2 y.2.2 = false := by
  induction l generalizing x with
  | nil => cases hx
  | cons a t ih =>
    rw [sortByDateDesc, List.foldr_cons, insertByDateDesc_head, ← sortByDateDesc] at hx
    cases ht : (sortByDateDesc t).head? with
    | none =>
      rw [ht] at hx
      simp only [Option.some.injEq] at hx
      subst hx
      have hempty : sortByDateDesc t = [] := List.head?_eq_none_iff.mp ht
      have h' := foldr_insertByDateDesc_length t
      rw [hempty] at h'
      have ht0 : t = [] := List.length_eq_zero.mp (by simpa using h'.symm)
      subst ht0
      intro y hy
      rcases List.mem_cons.mp hy with rfl | hyt
      · exact PDate.ltb_irrefl _
      · cases hyt
    | some h =>
      rw [ht] at hx
      simp only [Option.some.injEq] at hx
      by_cases hah : PDate.ltb a.2.2 h.2.2 = true
      · rw [if_pos hah] at hx
        subst hx
        intro y hy
        rcases List.mem_cons.mp hy with rfl | hyt
        · exact PDate.ltb_asymm _ _ hah
        · exact ih _ ht y hyt
      · rw [if_neg hah] at hx
        subst hx
        intro y hy
        rcases List.mem_cons.mp hy with rfl | hyt
        · exact PDate.ltb_irrefl _
        · exact PDate.not_ltb_trans _ _ _ (by simpa using hah) (ih _ ht y hyt)

theorem sortByDateDesc_head_firstMax (l : List (Nat × String × PDate))
    (x : Nat × String × PDate) (hx : (sortByDateDesc l).head? = some x) :
    ∃ l1 l2, l = l1 ++ x :: l2 ∧ ∀ z ∈ l1, PDate.ltb z.2.2 x.2.2 = true := by
  induction l generalizing x with
  | nil => cases hx
  | cons a t ih =>
    rw [sortByDateDesc, List.foldr_cons, insertByDateDesc_head, ← sortByDateDesc] at hx
    cases ht : (sortByDateDesc t).head? with
    | none =>
      rw [ht] at hx
      simp only [Option.some.injEq] at hx
      subst hx
      exact ⟨[], t, rfl, by simp⟩
    | some h =>
      rw [ht] at hx
      simp only [Option.some.injEq] at hx
      by_cases hah : PDate.ltb a.2.2 h.2.2 = true
      · rw [if_pos hah] at hx
        subst hx
        obtain ⟨t1, t2, hteq, ht1⟩ := ih _ ht
        refine ⟨a :: t1, t2, by rw [hteq, List.cons_append], ?_⟩
        intro z hz
        rcases List.mem_cons.mp hz with rfl | hzt
        · exact hah
        · exact ht1 z hzt
      · rw [if_neg hah] at hx
        subst hx
        exact ⟨[], t, rfl, by simp⟩

theorem dateColumnsFrom_mem_char (l : List String) (i : Nat) (x : Nat × String × PDate)
    (hx : x ∈ dateColumnsFrom l i) :
    i ≤ x.1 ∧ x.1 - i < l.length ∧ 2 ≤ x.1 ∧ pyStrip (cellAt l (x.1 - i)) = x.2.1 ∧
      x.2.1 ≠ "" ∧ parseHeaderDate x.2.1 = some x.2.2 := by
  induction l generalizing i with
  | nil => cases hx
  | cons a rest ih =>
    rw [dateColumnsFrom] at hx
    have step : x ∈ dateColumnsFrom rest (i + 1) →
        i ≤ x.1 ∧ x.1 - i < (a :: rest).length ∧ 2 ≤ x.1 ∧
          pyStrip (cellAt (a :: rest) (x.1 - i)) = x.2.1 ∧ x.2.1 ≠ "" ∧
          parseHeaderDate x.2.1 = some x.2.2 := by
      intro hmem
      obtain ⟨h1, h2, h3, h4, h5, h6⟩ := ih (i + 1) hmem
      have hxi : x.1 - i = (x.1 - (i + 1)) + 1 := by omega
      refine ⟨by omega, by simp only [List.length_cons]; omega, h3, ?_, h5, h6⟩
      rw [hxi, cellAt_cons_succ]
      exact h4
    simp only at hx
    split_ifs at hx with hi2 hempty
    · exact step hx
    · exact step hx
    · revert hx
      split
      next d hparse =>
        intro hx
        rcases List.mem_cons.mp hx with rfl | hmem
        · refine ⟨le_refl _, by simp, by omega, ?_, hempty, hparse⟩
          rw [Nat.sub_self, cellAt_cons_zero]
        · exact step hmem
      next hparse =>
        intro hx
        exact step hx

theorem dateColumnsFrom_pairwise (l : List String) (i : Nat) :
    (dateColumnsFrom l i).Pairwise (fun a b => a.1 < b.1) := by
  induction l generalizing i with
  | nil => exact List.Pairwise.nil
  | cons a rest ih =>
    rw [dateColumnsFrom]
    simp only
    split_ifs with hi2 hempty
    · exact ih (i + 1)
    · exact ih (i + 1)
    · split
      next d hparse =>
        refine List.pairwise_cons.mpr ⟨?_, ih (i + 1)⟩
        intro b hb
        have := (dateColumnsFrom_mem_char rest (i + 1) b hb).1
        omega
      next hparse => exact ih (i + 1)

/-! ## Unfolding the submission and basic consequences -/

theorem submitAttendance_eq (date : String) (att : List (String × String)) (g : Grid)
    (hg : g ≠ []) :
    submitAttendance date att g =
      some (appendMembers (resolvedCol g date) (newMembersOf att (namesOf g))
        ((namesOf g).map pyLower) g.length
        (writeStatuses att (resolvedCol g date) (resolvedGrid g date) (namesOf g) 1)) := by
  rw [submitAttendance, if_neg hg, resolvedCol, resolvedGrid]
  cases hfd : findDateCol (headerOf g) date <;> simp [hfd]

theorem namesOf_length_le (g : Grid) : (namesOf g).length ≤ g.length - 1 := by
  rw [namesOf]
  calc ((g.drop 1).filterMap nameEntry).length ≤ (g.drop 1).length :=
        List.length_filterMap_le _ _
    _ = g.length - 1 := by rw [List.length_drop]

theorem resolvedGrid_length (g : Grid) (date : String) (hg : g ≠ []) :
    (resolvedGrid g date).length = g.length := by
  rw [resolvedGrid]
  cases hfd : findDateCol (headerOf g) date with
  | some i => rfl
  | none =>
    rw [setCell_length]
    have : 1 ≤ g.length := List.length_pos.mpr hg
    omega

theorem namesOf_resolvedGrid (g : Grid) (date : String) :
    namesOf (resolvedGrid g date) = namesOf g := by
  rw [resolvedGrid]
  cases hfd : findDateCol (headerOf g) date with
  | some i => rfl
  | none => exact namesOf_setCell g 0 _ date (Or.inl rfl)

theorem headerOf_resolvedGrid_found (g : Grid) (date : String) (i : Nat)
    (hfd : findDateCol (headerOf g) date = some i) :
    headerOf (resolvedGrid g date) = headerOf g := by
  rw [resolvedGrid, hfd]

theorem headerOf_resolvedGrid_created (g : Grid) (date : String)
    (hfd : findDateCol (headerOf g) date = none) :
    headerOf (resolvedGrid g date) =
      setCellRow (headerOf g) (newDateCol (headerOf g)) date := by
  rw [resolvedGrid, hfd, headerOf, rowAt_setCell_self]
  rfl

/-! ## Properties of `newMembersOf` -/

theorem newMemberStep_cases (existing : List String) (acc : List (String × String))
    (p : String × String) :
    newMemberStep existing acc p = acc ∨
      (newMemberStep existing acc p = acc ++ [(pyStrip p.1, p.2)] ∧
        (∀ n ∈ existing, pyLower n ≠ pyLower (pyStrip p.1)) ∧
        (∀ q ∈ acc, pyLower q.1 ≠ pyLower (pyStrip p.1))) := by
  simp only [newMemberStep]
  split_ifs with hcond
  · exact Or.inl rfl
  · rw [Bool.or_eq_true, not_or] at hcond
    refine Or.inr ⟨rfl, ?_, ?_⟩
    · intro n hn he
      exact hcond.1 (List.any_eq_true.mpr ⟨n, hn, by simp [he]⟩)
    · intro q hq he
      exact hcond.2 (List.any_eq_true.mpr ⟨q, hq, by simp [he]⟩)

theorem newMemberStep_skip (existing : List String) (acc : List (String × String))
    (p : String × String) (h : ∃ n ∈ existing, pyLower n = pyLower (pyStrip p.1)) :
    newMemberStep existing acc p = acc := by
  obtain ⟨n, hn, he⟩ := h
  simp only [newMemberStep]
  rw [if_pos]
  rw [Bool.or_eq_true]
  exact Or.inl (List.any_eq_true.mpr ⟨n, hn, by simp [he]⟩)

theorem newMembersOf_foldl_mono (existing : List String) (att : List (String × String))
    (acc : List (String × String)) (q : String × String) (hq : q ∈ acc) :
    q ∈ att.foldl (newMemberStep existing) acc := by
  induction att generalizing acc with
  | nil => exact hq
  | cons p rest ih =>
    rw [List.foldl_cons]
    rcases newMemberStep_cases existing acc p with he | ⟨he, _, _⟩ <;> rw [he]
    · exact ih acc hq
    · exact ih _ (List.mem_append_left _ hq)

theorem newMembersOf_foldl_mem (existing : List String) (att : List (String × String))
    (acc : List (String × String)) (q : String × String)
    (hq : q ∈ att.foldl (newMemberStep existing) acc) :
    q ∈ acc ∨ ∃ p ∈ att, q = (pyStrip p.1, p.2) ∧
      ∀ n ∈ existing, pyLower n ≠ pyLower (pyStrip p.1) := by
  induction att generalizing acc with
  | nil => exact Or.inl hq
  | cons p rest ih =>
    rw [List.foldl_cons] at hq
    rcases newMemberStep_cases existing acc p with he | ⟨he, hex, _⟩
    · rw [he] at hq
      rcases ih acc hq with h | ⟨p', hp', heq, hn⟩
      · exact Or.inl h
      · exact Or.inr ⟨p', List.mem_cons_of_mem _ hp', heq, hn⟩
    · rw [he] at hq
      rcases ih _ hq with h | ⟨p', hp', heq, hn⟩
      · rcases List.mem_append.mp h with h' | h'
        · exact Or.inl h'
        · rw [List.mem_singleton] at h'
          exact Or.inr ⟨p, List.mem_cons_self p rest, h', hex⟩
      · exact Or.inr ⟨p', List.mem_cons_of_mem _ hp', heq, hn⟩

theorem newMembersOf_mem (att : List (String × String)) (existing : List String)
    (q : String × String) (hq : q ∈ newMembersOf att existing) :
    ∃ p ∈ att, q = (pyStrip p.1, p.2) ∧
      ∀ n ∈ existing, pyLower n ≠ pyLower (pyStrip p.1) := by
  rcases newMembersOf_foldl_mem existing att [] q hq with h | h
  · cases h
  · exact h

theorem newMembersOf_foldl_pairwise (existing : List String) (att : List (String × String))
    (acc : List (String × String))
    (hacc : acc.Pairwise (fun p q => pyLower p.1 ≠ pyLower q.1)) :
    (att.foldl (newMemberStep existing) acc).Pairwise
      (fun p q => pyLower p.1 ≠ pyLower q.1) := by
  induction att generalizing acc with
  | nil => exact hacc
  | cons p rest ih =>
    rw [List.foldl_cons]
    rcases newMemberStep_cases existing acc p with he | ⟨he, _, hdisj⟩ <;> rw [he]
    · exact ih acc hacc
    · apply ih
      rw [List.pairwise_append]
      refine ⟨hacc, List.pairwise_singleton _ _, ?_⟩
      intro a ha b hb
      rw [List.mem_singleton] at hb
      subst hb
      exact hdisj a ha

theorem newMembersOf_pairwise (att : List (String × String)) (existing : List String) :
    (newMembersOf att existing).Pairwise (fun p q => pyLower p.1 ≠ pyLower q.1) :=
  newMembersOf_foldl_pairwise existing att [] List.Pairwise.nil

theorem newMembersOf_foldl_complete (existing : List String) (att : List (String × String))
    (acc : List (String × String)) (p : String × String) (hp : p ∈ att) :
    (∃ n ∈ existing, pyLower n = pyLower (pyStrip p.1)) ∨
      ∃ q ∈ att.foldl (newMemberStep existing) acc,
        pyLower q.1 = pyLower (pyStrip p.1) := by
  induction att generalizing acc with
  | nil => cases hp
  | cons a rest ih =>
    rw [List.foldl_cons]
    rcases List.mem_cons.mp hp with rfl | hprest
    · by_cases hex : ∃ n ∈ existing, pyLower n = pyLower (pyStrip p.1)
      · exact Or.inl hex
      · right
        by_cases hcond : ((existing.any fun n => pyLower n == pyLower (pyStrip p.1)) ||
            acc.any fun q => pyLower q.1 == pyLower (pyStrip p.1)) = true
        · have hstep : newMemberStep existing acc p = acc := by
            simp only [newMemberStep]
            rw [if_pos hcond]
          rw [hstep]
          rcases Bool.or_eq_true _ _ |>.mp hcond with hc | hc
          · obtain ⟨n, hn, hb⟩ := List.any_eq_true.mp hc
            exact absurd ⟨n, hn, by simpa using hb⟩ hex
          · obtain ⟨q, hq, hb⟩ := List.any_eq_true.mp hc
            exact ⟨q, newMembersOf_foldl_mono existing rest acc q hq, by simpa using hb⟩
        · have hstep : newMemberStep existing acc p =
              acc ++ [(pyStrip p.1, p.2)] := by
            simp only [newMemberStep]
            rw [if_neg hcond]
          rw [hstep]
          exact ⟨(pyStrip p.1, p.2),
            newMembersOf_foldl_mono existing rest _ _
              (List.mem_append_right _ (List.mem_singleton_self _)), rfl⟩
    · exact ih _ hprest

theorem newMembersOf_complete (att : List (String × String)) (existing : List String)
    (p : String × String) (hp : p ∈ att) :
    (∃ n ∈ existing, pyLower n = pyLower (pyStrip p.1)) ∨
      ∃ q ∈ newMembersOf att existing, pyLower q.1 = pyLower (pyStrip p.1) :=
  newMembersOf_foldl_complete existing att [] p hp

theorem newMembersOf_eq_nil (att : List (String × String)) (existing : List String)
    (h : ∀ p ∈ att, ∃ n ∈ existing, pyLower n = pyLower (pyStrip p.1)) :
    newMembersOf att existing = [] := by
  rw [newMembersOf]
  have : ∀ acc, att.foldl (newMemberStep existing) acc = acc := by
    induction att with
    | nil => intro acc; rfl
    | cons p rest ih =>
      intro acc
      rw [List.foldl_cons, newMemberStep_skip existing acc p
        (h p (List.mem_cons_self p rest))]
      exact ih (fun q hq => h q (List.mem_cons_of_mem _ hq)) acc
  exact this []

/-! ## Access lemmas for appended regions, and status lookup -/

theorem rowAt_append_left (g : Grid) (rows : List (List String)) (r : Nat)
    (h : r < g.length) : rowAt (g ++ rows) r = rowAt g r := by
  simp [rowAt, List.getD_eq_getElem?_getD, List.getElem?_append, h]

theorem rowAt_append_right (g : Grid) (rows : List (List String)) (j : Nat) :
    rowAt (g ++ rows) (g.length + j) = rows.getD j [] := by
  rw [rowAt, List.getD_eq_getElem?_getD,
    List.getElem?_append_right (by omega : g.length ≤ g.length + j)]
  simp [List.getD_eq_getElem?_getD]

theorem getD_append_left (l1 l2 : List String) (k : Nat) (h : k < l1.length) :
    (l1 ++ l2).getD k "" = l1.getD k "" := by
  simp [List.getD_eq_getElem?_getD, List.getElem?_append, h]

theorem getD_append_right (l1 l2 : List String) (j : Nat) :
    (l1 ++ l2).getD (l1.length + j) "" = l2.getD j "" := by
  rw [List.getD_eq_getElem?_getD,
    List.getElem?_append_right (by omega : l1.length ≤ l1.length + j)]
  simp [List.getD_eq_getElem?_getD]

theorem statusFor_not_present (att : List (String × String)) (name : String)
    (h : ∀ p ∈ att, pyLower (pyStrip p.1) ≠ pyLower name) :
    statusFor att name = "Not Present" := by
  rw [statusFor, attLookup, List.find?_eq_none.mpr]
  · rfl
  · intro p hp
    simpa using h p (List.mem_reverse.mp hp)

theorem statusFor_match (att : List (String × String)) (name : String)
    (hmatch : ∃ p ∈ att, pyLower (pyStrip p.1) = pyLower name) :
    ∃ p ∈ att, pyLower (pyStrip p.1) = pyLower name ∧ statusFor att name = p.2 := by
  rw [statusFor, attLookup]
  cases hf : att.reverse.find? (fun p => pyLower (pyStrip p.1) == pyLower name) with
  | none =>
    obtain ⟨p, hp, hpe⟩ := hmatch
    have := List.find?_eq_none.mp hf p (List.mem_reverse.mpr hp)
    simp [hpe] at this
  | some q =>
    refine ⟨q, List.mem_reverse.mp (List.mem_of_find?_eq_some hf), ?_, rfl⟩
    simpa using List.find?_some hf

theorem find?_attKey_unique (l : List (String × String)) (p : String × String)
    (hp : p ∈ l)
    (hpw : l.Pairwise (fun a b => pyLower (pyStrip a.1) ≠ pyLower (pyStrip b.1))) :
    l.find? (fun q => pyLower (pyStrip q.1) == pyLower (pyStrip p.1)) = some p := by
  induction l with
  | nil => cases hp
  | cons a rest ih =>
    rcases List.mem_cons.mp hp with rfl | hprest
    · exact List.find?_cons_of_pos _ (by simp)
    · have hne : pyLower (pyStrip a.1) ≠ pyLower (pyStrip p.1) :=
        (List.pairwise_cons.mp hpw).1 p hprest
      rw [List.find?_cons_of_neg _ (by simpa using hne)]
      exact ih hprest (List.pairwise_cons.mp hpw).2

theorem attLookup_unique (att : List (String × String)) (p : String × String)
    (hp : p ∈ att)
    (hpw : att.Pairwise (fun a b => pyLower (pyStrip a.1) ≠ pyLower (pyStrip b.1))) :
    attLookup att (pyLower (pyStrip p.1)) = some (pyStrip p.1, p.2) := by
  rw [attLookup, find?_attKey_unique att.reverse p (List.mem_reverse.mpr hp)]
  · rfl
  · rw [List.pairwise_reverse]
    exact hpw.imp (fun h => Ne.symm h)

/-! ## Name lists of grids with no blank-name rows -/

theorem filterMap_nameEntry_of_nonempty (l : List (List String))
    (h : ∀ row ∈ l, rowName row ≠ "") : l.filterMap nameEntry = l.map rowName := by
  induction l with
  | nil => rfl
  | cons a t ih =>
    rw [List.filterMap_cons, List.map_cons, nameEntry,
      if_neg (h a (List.mem_cons_self a t))]
    rw [ih (fun r hr => h r (List.mem_cons_of_mem _ hr))]

theorem namesOf_eq_map (g : Grid) (h : ∀ row ∈ g.drop 1, rowName row ≠ "") :
    namesOf g = (g.drop 1).map rowName := by
  rw [namesOf, filterMap_nameEntry_of_nonempty _ h]

theorem namesOf_length_full (g : Grid) (h : ∀ row ∈ g.drop 1, rowName row ≠ "") :
    (namesOf g).length = g.length - 1 := by
  rw [namesOf_eq_map g h, List.length_map, List.length_drop]

theorem namesOf_getD (g : Grid) (h : ∀ row ∈ g.drop 1, rowName row ≠ "") (k : Nat)
    (hk : k + 1 < g.length) :
    (namesOf g).getD k "" = rowName (rowAt g (k + 1)) := by
  rw [namesOf_eq_map g h, List.getD_eq_getElem?_getD, List.getElem?_map,
    List.getElem?_drop, show (1 : Nat) + k = k + 1 from Nat.add_comm 1 k,
    List.getElem?_eq_getElem hk]
  rw [rowAt, List.getD_eq_getElem?_getD, List.getElem?_eq_getElem hk]
  rfl

theorem filterMap_nameEntry_memberRows (dateCol : Nat) (members : List (String × String))
    (hd : dateCol ≠ 1) (hm : ∀ q ∈ members, pyStrip q.1 = q.1 ∧ q.1 ≠ "") :
    (members.map (memberRow dateCol)).filterMap nameEntry = members.map Prod.fst := by
  induction members with
  | nil => rfl
  | cons q rest ih =>
    have h1 := hm q (List.mem_cons_self q rest)
    have hrn : rowName (memberRow dateCol q) = q.1 := by
      rw [rowName_memberRow _ _ hd, h1.1]
    rw [List.map_cons, List.filterMap_cons, List.map_cons, nameEntry, hrn,
      if_neg h1.2, ih (fun r hr => hm r (List.mem_cons_of_mem _ hr))]

/-! ## The date column as seen by a repeated submission -/

theorem resolvedCol_ge_two (g : Grid) (date : String)
    (hlen : 2 ≤ (headerOf g).length) (hname : pyStrip (cellAt (headerOf g) 1) ≠ "") :
    2 ≤ resolvedCol g date := by
  rw [resolvedCol]
  cases hfd : findDateCol (headerOf g) date with
  | some i => exact (findDateCol_eq_some _ _ _ hfd).2.1
  | none => exact newDateCol_ge_two _ hlen hname

theorem resolvedCol_le_length (g : Grid) (date : String) :
    resolvedCol g date ≤ (headerOf g).length := by
  rw [resolvedCol]
  cases hfd : findDateCol (headerOf g) date with
  | some i => exact le_of_lt (findDateCol_eq_some _ _ _ hfd).1
  | none => exact newDateCol_le_length _

theorem findDateCol_resolved (g : Grid) (date : String) (hdate : pyStrip date = date)
    (hlen : 2 ≤ (headerOf g).length) (hname : pyStrip (cellAt (headerOf g) 1) ≠ "") :
    findDateCol (headerOf (resolvedGrid g date)) date = some (resolvedCol g date) := by
  cases hfd : findDateCol (headerOf g) date with
  | some i =>
    have hc : resolvedCol g date = i := by rw [resolvedCol, hfd]
    rw [hc, headerOf_resolvedGrid_found g date i hfd, hfd]
  | none =>
    have hc : resolvedCol g date = newDateCol (headerOf g) := by rw [resolvedCol, hfd]
    rw [hc, headerOf_resolvedGrid_created g date hfd]
    have hd2 : 2 ≤ newDateCol (headerOf g) := newDateCol_ge_two _ hlen hname
    have hdle : newDateCol (headerOf g) ≤ (headerOf g).length := newDateCol_le_length _
    apply findDateCol_eq_some_of
    · rw [setCellRow_length]
      omega
    · exact hd2
    · rw [cellAt_setCellRow_self]
      exact hdate
    · rintro k hk ⟨hk2, hkm⟩
      rw [cellAt_setCellRow_ne _ _ _ _ (by omega)] at hkm
      exact findDateCol_eq_none _ _ hfd k (by omega) ⟨hk2, hkm⟩

/-! ## Closed form of one submission -/

theorem newMembersOf_not_contains (att : List (String × String)) (names : List String)
    (q : String × String) (hq : q ∈ newMembersOf att names) :
    ¬ (names.map pyLower).contains (pyLower q.1) = true := by
  obtain ⟨p, hp, rfl, hn⟩ := newMembersOf_mem _ _ q hq
  intro hcontains
  rw [List.contains, List.elem_iff] at hcontains
  obtain ⟨n, hnmem, hne⟩ := List.mem_map.mp hcontains
  exact hn n hnmem hne

/-- The submission, written as: the grid after the header write and the
per-row status writes, extended with one materialized row per new member. -/
theorem submit_result_form (date : String) (att : List (String × String)) (g : Grid)
    (hg : g ≠ []) :
    submitAttendance date att g = some
      (writeStatuses att (resolvedCol g date) (resolvedGrid g date) (namesOf g) 1 ++
        (newMembersOf att (namesOf g)).map (memberRow (resolvedCol g date))) := by
  rw [submitAttendance_eq date att g hg]
  have hglen : 1 ≤ g.length := List.length_pos.mpr hg
  have hwlen : (writeStatuses att (resolvedCol g date) (resolvedGrid g date)
      (namesOf g) 1).length = g.length := by
    rw [writeStatuses_length, resolvedGrid_length g date hg]
    rw [resolvedGrid_length g date hg]
    have := namesOf_length_le g
    omega
  congr 1
  rw [show g.length = (writeStatuses att (resolvedCol g date) (resolvedGrid g date)
    (namesOf g) 1).length from hwlen.symm]
  exact appendMembers_closed _ _ _ _
    (fun q hq => newMembersOf_not_contains att (namesOf g) q hq)
    (newMembersOf_pairwise att (namesOf g))

theorem submit_result_length (date : String) (att : List (String × String)) (g g' : Grid)
    (hg : g ≠ []) (hsub : submitAttendance date att g = some g') :
    g'.length = g.length + (newMembersOf att (namesOf g)).length := by
  rw [submit_result_form date att g hg] at hsub
  cases hsub
  rw [List.length_append, List.length_map]
  congr 1
  rw [writeStatuses_length, resolvedGrid_length g date hg]
  rw [resolvedGrid_length g date hg]
  have := namesOf_length_le g
  have hglen : 1 ≤ g.length := List.length_pos.mpr hg
  omega

/-! ## The claims -/

/-- C5: the claim says Present dominates across duplicate rows regardless of
row order, and the code's own comments (lines 394-397 and 425-430) state the
same intent.  Evaluating the model of `parse_attendance_file` on the claim's
own input shows the opposite: with the ticked "Carol" row first and the blank
one second, the result is "Not Present" (the guard at line 430 tests the
lower-cased name against a dict keyed by original-cased names, so the blank
later row overwrites the Present status); the reversed order gives "Present".
-/
theorem C5_duplicate_present_dominance_bug :
    parseAttendanceFile (.ok [[some "Carol", some "✓"], [some "Carol", none]])
      "attendance.csv" = .ok [("Carol", "Not Present")] ∧
    parseAttendanceFile (.ok [[some "Carol", none], [some "Carol", some "✓"]])
      "attendance.csv" = .ok [("Carol", "Present")] :=
  ⟨rfl, rfl⟩

/-- C8 counterexample: a file whose only row is a header row is parsed without
error into the empty mapping (no `EmptyInput` failure), and an empty
observation is processed by `submit_attendance` (every pre-existing member is
set to "Not Present") rather than rejected as a validation failure. -/
theorem C8_empty_input_counterexample :
    parseAttendanceFile (.ok [[some "Name", some "Status"]]) "roster.csv" = .ok [] ∧
    submitAttendance "2024-01-05" [] [["", "Name"], ["", "Alice"]] =
      some [["", "Name", "2024-01-05"], ["", "Alice", "Not Present"]] :=
  ⟨rfl, rfl⟩

/-- C8 amended: `parse_attendance_file` raises exactly when the loaded frame
has zero rows — a header-only file yields the empty mapping with no error
(the upload route, not the parser, rejects that) — and an empty observation
is processed by `submit_attendance` whenever the sheet snapshot is non-empty.
-/
theorem C8_empty_input_amended (g : Grid) (df : DataFrame) (date : String) :
    ((parseAttendanceFile (.ok df) "attendance.csv").isOk = true ↔ df ≠ []) ∧
    (g ≠ [] → (submitAttendance date [] g).isSome = true) := by
  constructor
  · rw [parseAttendanceFile, if_neg (by decide)]
    by_cases hdf : df = []
    · subst hdf
      simp [Except.isOk, Except.toBool]
    · simp [hdf, Except.isOk, Except.toBool]
  · intro hg
    rw [submitAttendance, if_neg hg]
    rfl

theorem C8_empty_input_amended_witness :
    ([[some "Name", some "Status"]] : DataFrame) ≠ [] ∧
    (parseAttendanceFile (.ok [[some "Name", some "Status"]]) "attendance.csv").isOk =
      true ∧
    ([["", "Name"], ["", "Alice"]] : Grid) ≠ [] ∧
    (submitAttendance "2024-01-05" [] [["", "Name"], ["", "Alice"]]).isSome = true :=
  ⟨by decide,
    (C8_empty_input_amended [["", "Name"], ["", "Alice"]] [[some "Name", some "Status"]]
      "2024-01-05").1.mpr (by decide),
    by decide,
    (C8_empty_input_amended [["", "Name"], ["", "Alice"]] [[some "Name", some "Status"]]
      "2024-01-05").2 (by decide)⟩

/-- C9 counterexample: the three read operations catch every exception and
return a normal-looking empty result: an internal storage error is
indistinguishable from a legitimately empty answer. -/
theorem C9_error_swallowing_counterexample :
    getMembers (.error "Google Sheets connection failed") = [] ∧
    getAttendanceForDate (.error "Google Sheets connection failed") "2024-01-05" = [] ∧
    getMostRecentAttendance (.error "Google Sheets connection failed") = ([], "") :=
  ⟨rfl, rfl, rfl⟩

/-- C9 amended: only `submit_attendance` and `parse_attendance_file` re-raise
an error arising inside the operation; `get_members`,
`get_attendance_for_date` and `get_most_recent_attendance` swallow it and
return an empty mapping/list in its place. -/
theorem C9_error_propagation_amended (e : String) (date : String)
    (att : List (String × String)) :
    submitAttendanceOp (.error e) date att = .error e ∧
    parseAttendanceFile (.error e) "attendance.csv" = .error e ∧
    getMembers (.error e) = [] ∧
    getAttendanceForDate (.error e) date = [] ∧
    getMostRecentAttendance (.error e) = ([], "") := by
  refine ⟨rfl, ?_, rfl, rfl, rfl⟩
  rw [parseAttendanceFile, if_neg (by decide)]

/-- C7 counterexample: the empty-header scan of `submit_attendance` starts at
index 1 — the name column itself — not strictly after it.  With header row
`["x", "", "2024-01-05"]` and a date key matching no column, the claim places
the new header at position 3 (no empty header strictly after column B),
leaving cell 1 unchanged; the code instead writes the date into the column-B
header cell (index 1), and then writes the statuses into that same column,
clobbering the member names. -/
theorem C7_insertion_position_counterexample :
    submitAttendance "2024-02-02" [("Ann", "Present")]
        [["x", "", "2024-01-05"], ["", "Ann"]] =
      some [["x", "2024-02-02", "2024-01-05"], ["", "Present"]] ∧
    cellAt (headerOf [["x", "2024-02-02", "2024-01-05"], ["", "Present"]]) 1 =
      "2024-02-02" ∧
    cellAt (headerOf [["x", "2024-02-02", "2024-01-05"], ["", "Present"]]) 3 ≠
      "2024-02-02" :=
  ⟨rfl, rfl, by decide⟩

/-- C7 amended: when no trimmed header at index ≥ 2 equals the date key, the
new date header is written at the first column at index ≥ 1 — the name
column included — whose header cell is empty or whitespace-only; if no such
cell exists, it is written one past the last existing header cell.  All
other header cells are unchanged. -/
theorem C7_insertion_position_amended (g : Grid) (date : String)
    (att : List (String × String)) (g' : Grid) (hg : g ≠ [])
    (hfd : findDateCol (headerOf g) date = none)
    (hsub : submitAttendance date att g = some g') :
    cellAt (headerOf g') (newDateCol (headerOf g)) = date ∧
    (∀ j, j ≠ newDateCol (headerOf g) →
      cellAt (headerOf g') j = cellAt (headerOf g) j) ∧
    ((1 ≤ newDateCol (headerOf g) ∧ newDateCol (headerOf g) < (headerOf g).length ∧
        pyStrip (cellAt (headerOf g) (newDateCol (headerOf g))) = "" ∧
        ∀ k, 1 ≤ k → k < newDateCol (headerOf g) →
          pyStrip (cellAt (headerOf g) k) ≠ "") ∨
      (newDateCol (headerOf g) = (headerOf g).length ∧
        ∀ k, 1 ≤ k → k < (headerOf g).length → pyStrip (cellAt (headerOf g) k) ≠ "")) := by
  rw [submit_result_form date att g hg] at hsub
  cases hsub
  have hglen : 1 ≤ g.length := List.length_pos.mpr hg
  have hwlen : (writeStatuses att (resolvedCol g date) (resolvedGrid g date)
      (namesOf g) 1).length = g.length := by
    rw [writeStatuses_length, resolvedGrid_length g date hg]
    rw [resolvedGrid_length g date hg]
    have := namesOf_length_le g
    omega
  have hhdr : headerOf (writeStatuses att (resolvedCol g date) (resolvedGrid g date)
      (namesOf g) 1 ++
        (newMembersOf att (namesOf g)).map (memberRow (resolvedCol g date))) =
      setCellRow (headerOf g) (newDateCol (headerOf g)) date := by
    rw [headerOf, rowAt_append_left _ _ 0 (by omega), ← headerOf,
      writeStatuses_headerOf, headerOf_resolvedGrid_created g date hfd]
  rw [hhdr]
  exact ⟨cellAt_setCellRow_self _ _ _,
    fun j hj => cellAt_setCellRow_ne _ _ _ _ hj,
    newDateCol_spec (headerOf g)⟩

theorem C7_insertion_position_witness :
    cellAt (headerOf [["", "Name", "2024-02-10"], ["", "Al", "Present"]])
      (newDateCol (headerOf [["", "Name"], ["", "Al"]])) = "2024-02-10" :=
  (C7_insertion_position_amended [["", "Name"], ["", "Al"]] "2024-02-10"
    [("Al", "Present")] [["", "Name", "2024-02-10"], ["", "Al", "Present"]]
    (by decide) (by decide) (by decide)).1

/-- C6: the most-recent-attendance selection considers exactly the non-empty
trimmed headers at column indices ≥ 2 that parse under the fixed format list
(first parsing format determining the date); among them the selected column
carries a maximal parsed date, and any column with the same parsed date has a
column index at least as large (left-most wins on ties). -/
theorem C6_most_recent_selection (header : List String) (c : Nat × String × PDate)
    (h : mostRecentCol header = some c) :
    (2 ≤ c.1 ∧ c.1 < header.length ∧ pyStrip (cellAt header c.1) = c.2.1 ∧
      c.2.1 ≠ "" ∧ parseHeaderDate c.2.1 = some c.2.2) ∧
    (∀ x ∈ dateColumns header, PDate.ltb c.2.2 x.2.2 = false) ∧
    (∀ x ∈ dateColumns header, x.2.2 = c.2.2 → c.1 ≤ x.1) := by
  rw [mostRecentCol] at h
  obtain ⟨l1, l2, heq, hl1⟩ := sortByDateDesc_head_firstMax _ c h
  have hc_mem : c ∈ dateColumns header := by
    rw [heq]
    exact List.mem_append_right _ (List.mem_cons_self _ _)
  have hchar := dateColumnsFrom_mem_char header 0 c hc_mem
  simp only [Nat.sub_zero] at hchar
  have hmax := sortByDateDesc_head_max _ c h
  refine ⟨⟨hchar.2.2.1, hchar.2.1, hchar.2.2.2.1, hchar.2.2.2.2.1, hchar.2.2.2.2.2⟩,
    hmax, ?_⟩
  intro x hx hdate
  have hpw := dateColumnsFrom_pairwise header 0
  rw [show dateColumnsFrom header 0 = dateColumns header from rfl, heq] at hpw
  rw [heq] at hx
  rcases List.mem_append.mp hx with hx1 | hx2
  · have hlt := hl1 x hx1
    rw [hdate, PDate.ltb_irrefl] at hlt
    cases hlt
  · rcases List.mem_cons.mp hx2 with rfl | hx3
    · exact le_refl _
    · have hp2 := (List.pairwise_append.mp hpw).2.1
      exact le_of_lt ((List.pairwise_cons.mp hp2).1 x hx3)

theorem C6_most_recent_selection_witness :
    mostRecentCol ["id", "Name", "2024-01-05", "2024-02-10", "not-a-date"] =
      some (3, "2024-02-10", ⟨2024, 2, 10⟩) ∧
    2 ≤ (3, "2024-02-10", (⟨2024, 2, 10⟩ : PDate)).1 :=
  ⟨by decide,
    (C6_most_recent_selection ["id", "Name", "2024-01-05", "2024-02-10", "not-a-date"]
      (3, "2024-02-10", ⟨2024, 2, 10⟩) (by decide)).1.1⟩

theorem cellAt_of_le_length (l : List String) (j : Nat) (h : l.length ≤ j) :
    cellAt l j = "" := by
  rw [cellAt, List.getD_eq_getElem?_getD, List.getElem?_eq_none h]
  rfl

theorem namesOf_writeStatuses (att : List (String × String)) (c : Nat) (g : Grid)
    (names : List String) (r : Nat) (hc : c ≠ 1) :
    namesOf (writeStatuses att c g names r) = namesOf g := by
  induction names generalizing g r with
  | nil => rfl
  | cons n ns ih =>
    rw [writeStatuses, ih _ (r + 1), namesOf_setCell _ _ _ _ (Or.inr hc)]

theorem getD_map_memberRow (dateCol : Nat) (members : List (String × String)) (j : Nat)
    (hj : j < members.length) :
    (members.map (memberRow dateCol)).getD j [] =
      memberRow dateCol (members.getD j ("", "")) := by
  rw [List.getD_eq_getElem?_getD, List.getElem?_map,
    List.getElem?_eq_getElem hj, List.getD_eq_getElem?_getD,
    List.getElem?_eq_getElem hj]
  rfl

theorem getD_map_fst (members : List (String × String)) (j : Nat)
    (hj : j < members.length) :
    (members.map Prod.fst).getD j "" = (members.getD j ("", "")).1 := by
  rw [List.getD_eq_getElem?_getD, List.getElem?_map,
    List.getElem?_eq_getElem hj, List.getD_eq_getElem?_getD,
    List.getElem?_eq_getElem hj]
  rfl

/-- C4: case-insensitive identity.  First: submitting
`{"john smith": "Present"}` against a roster holding "John Smith" writes the
status into the existing row and appends no row (the result has the same two
rows).  Second, in general: every row beyond the original grid is the row
materialized for an observation key whose trimmed-lowercased form matches no
existing name — rows are appended only for unmatched keys. -/
theorem C4_case_insensitive_identity :
    (submitAttendance "2024-01-05" [("john smith", "Present")]
        [["", "Name"], ["", "John Smith"]] =
      some [["", "Name", "2024-01-05"], ["", "John Smith", "Present"]]) ∧
    ∀ (date : String) (att : List (String × String)) (g g' : Grid), g ≠ [] →
      submitAttendance date att g = some g' →
      ∀ r, g.length ≤ r → r < g'.length →
        ∃ p ∈ att, rowAt g' r = memberRow (resolvedCol g date) (pyStrip p.1, p.2) ∧
          ∀ n ∈ namesOf g, pyLower n ≠ pyLower (pyStrip p.1) := by
  refine ⟨rfl, ?_⟩
  intro date att g g' hg hsub r hr1 hr2
  have hlen := submit_result_length date att g g' hg hsub
  rw [submit_result_form date att g hg] at hsub
  cases hsub
  have hglen : 1 ≤ g.length := List.length_pos.mpr hg
  have hwlen : (writeStatuses att (resolvedCol g date) (resolvedGrid g date)
      (namesOf g) 1).length = g.length := by
    rw [writeStatuses_length, resolvedGrid_length g date hg]
    rw [resolvedGrid_length g date hg]
    have := namesOf_length_le g
    omega
  have hjlt : r - g.length < (newMembersOf att (namesOf g)).length := by omega
  have hj : r = (writeStatuses att (resolvedCol g date) (resolvedGrid g date)
      (namesOf g) 1).length + (r - g.length) := by omega
  have hrow : rowAt (writeStatuses att (resolvedCol g date) (resolvedGrid g date)
      (namesOf g) 1 ++
        (newMembersOf att (namesOf g)).map (memberRow (resolvedCol g date)))
      r = memberRow (resolvedCol g date)
        ((newMembersOf att (namesOf g)).getD (r - g.length) ("", "")) := by
    conv_lhs => rw [hj]
    rw [rowAt_append_right, getD_map_memberRow _ _ _ hjlt]
  have hmem : (newMembersOf att (namesOf g)).getD (r - g.length) ("", "") ∈
      newMembersOf att (namesOf g) := by
    rw [List.getD_eq_getElem?_getD, List.getElem?_eq_getElem hjlt]
    exact List.getElem_mem _
  obtain ⟨p, hp, heq, hn⟩ := newMembersOf_mem _ _ _ hmem
  refine ⟨p, hp, ?_, hn⟩
  rw [hrow, heq]

theorem C4_case_insensitive_identity_witness :
    ∃ p ∈ [("Bob", "Present")],
      rowAt [["", "Name", "2024-01-05"], ["", "Bob", "Present"]] 1 =
        memberRow (resolvedCol [["", "Name"]] "2024-01-05") (pyStrip p.1, p.2) ∧
      ∀ n ∈ namesOf [["", "Name"]], pyLower n ≠ pyLower (pyStrip p.1) :=
  C4_case_insensitive_identity.2 "2024-01-05" [("Bob", "Present")] [["", "Name"]]
    [["", "Name", "2024-01-05"], ["", "Bob", "Present"]] (by decide) (by decide)
    1 (by decide) (by decide)

/-- C1 counterexample: over a table with a blank-name row between "Alice" and
"Bob", the write row is 2 plus the position in the compacted name list, so
Bob's status lands on the blank row (index 2) and Bob's own row (index 3) is
left unwritten for the submitted date — its cell in the resolved date column
(index 2) stays empty instead of holding "Present" or "Not Present". -/
theorem C1_explicit_negative_counterexample :
    submitAttendance "2024-01-05" [("Bob", "Present")]
        [["", "Name"], ["", "Alice"], ["", ""], ["", "Bob"]] =
      some [["", "Name", "2024-01-05"], ["", "Alice", "Not Present"],
        ["", "", "Present"], ["", "Bob"]] ∧
    rowName (rowAt [["", "Name"], ["", "Alice"], ["", ""], ["", "Bob"]] 3) = "Bob" ∧
    getCell [["", "Name", "2024-01-05"], ["", "Alice", "Not Present"],
      ["", "", "Present"], ["", "Bob"]] 3 2 = "" :=
  ⟨rfl, rfl, rfl⟩

/-- C1 amended: restricted to tables in which every row after the header has
a non-empty trimmed name cell in column B.  Then for every pre-existing row:
if its trimmed-lowercased name equals the trimmed-lowercased form of some
observation key, that key's status is written into the resolved date column
of that row (with colliding keys, the last such key's status — the Python
dict comprehension lets later keys shadow earlier ones); otherwise the
literal "Not Present" is written there.  No pre-existing named row is left
unwritten. -/
theorem C1_explicit_negative_amended (date : String) (att : List (String × String))
    (g g' : Grid) (hg : g ≠ [])
    (hnames : ∀ row ∈ g.drop 1, rowName row ≠ "")
    (hsub : submitAttendance date att g = some g') :
    ∀ r, 1 ≤ r → r < g.length →
      ((∃ p ∈ att, pyLower (pyStrip p.1) = pyLower (rowName (rowAt g r)) ∧
          getCell g' r (resolvedCol g date) = p.2) ∨
        ((∀ p ∈ att, pyLower (pyStrip p.1) ≠ pyLower (rowName (rowAt g r))) ∧
          getCell g' r (resolvedCol g date) = "Not Present")) := by
  intro r hr1 hr2
  rw [submit_result_form date att g hg] at hsub
  cases hsub
  have hglen : 1 ≤ g.length := List.length_pos.mpr hg
  have hnlen : (namesOf g).length = g.length - 1 := namesOf_length_full g hnames
  have hwlen : (writeStatuses att (resolvedCol g date) (resolvedGrid g date)
      (namesOf g) 1).length = g.length := by
    rw [writeStatuses_length, resolvedGrid_length g date hg]
    rw [resolvedGrid_length g date hg]
    omega
  have hrowAt : rowAt (writeStatuses att (resolvedCol g date) (resolvedGrid g date)
      (namesOf g) 1 ++
        (newMembersOf att (namesOf g)).map (memberRow (resolvedCol g date))) r =
      rowAt (writeStatuses att (resolvedCol g date) (resolvedGrid g date)
        (namesOf g) 1) r :=
    rowAt_append_left _ _ r (by omega)
  have hwrit := writeStatuses_rowAt_written att (resolvedCol g date)
    (resolvedGrid g date) (namesOf g) 1 (r - 1) (by omega)
  rw [show 1 + (r - 1) = r from by omega] at hwrit
  have hname_id : (namesOf g).getD (r - 1) "" = rowName (rowAt g r) := by
    have := namesOf_getD g hnames (r - 1) (by omega)
    rwa [show r - 1 + 1 = r from by omega] at this
  by_cases hmatch : ∃ p ∈ att, pyLower (pyStrip p.1) = pyLower (rowName (rowAt g r))
  · left
    obtain ⟨p, hp, hpe, hps⟩ := statusFor_match att (rowName (rowAt g r)) hmatch
    refine ⟨p, hp, hpe, ?_⟩
    rw [getCell, hrowAt, hwrit, hname_id, cellAt_setCellRow_self, hps]
  · right
    push_neg at hmatch
    refine ⟨hmatch, ?_⟩
    rw [getCell, hrowAt, hwrit, hname_id, cellAt_setCellRow_self,
      statusFor_not_present att _ hmatch]

theorem C1_explicit_negative_amended_witness :
    (∃ p ∈ [("al", "Present")],
      pyLower (pyStrip p.1) = pyLower (rowName (rowAt [["", "Name"], ["", "Al"]] 1)) ∧
        getCell [["", "Name", "2024-01-05"], ["", "Al", "Present"]] 1
          (resolvedCol [["", "Name"], ["", "Al"]] "2024-01-05") = p.2) ∨
    ((∀ p ∈ [("al", "Present")],
        pyLower (pyStrip p.1) ≠ pyLower (rowName (rowAt [["", "Name"], ["", "Al"]] 1))) ∧
      getCell [["", "Name", "2024-01-05"], ["", "Al", "Present"]] 1
        (resolvedCol [["", "Name"], ["", "Al"]] "2024-01-05") = "Not Present") :=
  C1_explicit_negative_amended "2024-01-05" [("al", "Present")]
    [["", "Name"], ["", "Al"]] [["", "Name", "2024-01-05"], ["", "Al", "Present"]]
    (by decide) (by decide) (by decide) 1 (by decide) (by decide)

/-- C10: the write row of each pre-existing member is 2 plus its position in
the compacted name list; over tables in which every row after the header has
a non-empty trimmed name in column B, this is the member's actual row, so
each pre-existing row receives exactly the status computed for its own name.
The second conjunct shows the correspondence failing without that
precondition: with a whitespace-name row in the middle, the member below it
keeps an empty cell while the blank row receives the member's status. -/
theorem C10_row_alignment :
    (∀ (date : String) (att : List (String × String)) (g g' : Grid), g ≠ [] →
      (∀ row ∈ g.drop 1, rowName row ≠ "") →
      submitAttendance date att g = some g' →
      ∀ r, 1 ≤ r → r < g.length →
        getCell g' r (resolvedCol g date) = statusFor att (rowName (rowAt g r))) ∧
    (submitAttendance "2024-03-01" [("Eve", "Present")]
        [["", "Name"], ["", "Dan"], ["", "  "], ["", "Eve"]] =
      some [["", "Name", "2024-03-01"], ["", "Dan", "Not Present"],
        ["", "  ", "Present"], ["", "Eve"]] ∧
      getCell [["", "Name", "2024-03-01"], ["", "Dan", "Not Present"],
          ["", "  ", "Present"], ["", "Eve"]] 3 2 ≠
        statusFor [("Eve", "Present")]
          (rowName (rowAt [["", "Name"], ["", "Dan"], ["", "  "], ["", "Eve"]] 3))) := by
  constructor
  · intro date att g g' hg hnames hsub r hr1 hr2
    rw [submit_result_form date att g hg] at hsub
    cases hsub
    have hglen : 1 ≤ g.length := List.length_pos.mpr hg
    have hnlen : (namesOf g).length = g.length - 1 := namesOf_length_full g hnames
    have hwlen : (writeStatuses att (resolvedCol g date) (resolvedGrid g date)
        (namesOf g) 1).length = g.length := by
      rw [writeStatuses_length, resolvedGrid_length g date hg]
      rw [resolvedGrid_length g date hg]
      omega
    have hrowAt : rowAt (writeStatuses att (resolvedCol g date) (resolvedGrid g date)
        (namesOf g) 1 ++
          (newMembersOf att (namesOf g)).map (memberRow (resolvedCol g date))) r =
        rowAt (writeStatuses att (resolvedCol g date) (resolvedGrid g date)
          (namesOf g) 1) r :=
      rowAt_append_left _ _ r (by omega)
    have hwrit := writeStatuses_rowAt_written att (resolvedCol g date)
      (resolvedGrid g date) (namesOf g) 1 (r - 1) (by omega)
    rw [show 1 + (r - 1) = r from by omega] at hwrit
    have hname_id : (namesOf g).getD (r - 1) "" = rowName (rowAt g r) := by
      have := namesOf_getD g hnames (r - 1) (by omega)
      rwa [show r - 1 + 1 = r from by omega] at this
    rw [getCell, hrowAt, hwrit, hname_id, cellAt_setCellRow_self]
  · exact ⟨rfl, by decide⟩

theorem C10_row_alignment_witness :
    getCell [["", "Roster", "2024-03-01"], ["", "Zoe", "Yes"]] 1
      (resolvedCol [["", "Roster"], ["", "Zoe"]] "2024-03-01") =
    statusFor [("ZOE", "Yes")] (rowName (rowAt [["", "Roster"], ["", "Zoe"]] 1)) :=
  C10_row_alignment.1 "2024-03-01" [("ZOE", "Yes")] [["", "Roster"], ["", "Zoe"]]
    [["", "Roster", "2024-03-01"], ["", "Zoe", "Yes"]] (by decide) (by decide)
    (by decide) 1 (by decide) (by decide)

/-- C3 counterexample: with a date key carrying leading whitespace, the
trimmed-header comparison never matches the key, so every submission creates
a fresh column whose header equals the key: after two submissions the headers
at indices 2 and 3 both equal the date key. -/
theorem C3_column_uniqueness_counterexample :
    submitMany " 2024-03-01" [[("Bea", "Present")], [("Bea", "Present")]]
        [["", "Name"], ["", "Bea"]] =
      some [["", "Name", " 2024-03-01", " 2024-03-01"],
        ["", "Bea", "Present", "Present"]] ∧
    cellAt (headerOf [["", "Name", " 2024-03-01", " 2024-03-01"],
      ["", "Bea", "Present", "Present"]]) 2 = " 2024-03-01" ∧
    cellAt (headerOf [["", "Name", " 2024-03-01", " 2024-03-01"],
      ["", "Bea", "Present", "Present"]]) 3 = " 2024-03-01" ∧
    (2 : Nat) ≠ 3 :=
  ⟨rfl, rfl, rfl, by decide⟩

/-- One submission preserves uniqueness of the trim-matched column, for a
non-empty trim-invariant date key, and keeps the grid non-empty. -/
theorem submit_trimUnique_preserved (date : String) (att : List (String × String))
    (g g' : Grid) (hg : g ≠ []) (_hdate : pyStrip date = date) (hne : date ≠ "")
    (hsub : submitAttendance date att g = some g')
    (huniq : ∀ j k, 2 ≤ j → 2 ≤ k → pyStrip (cellAt (headerOf g) j) = date →
      pyStrip (cellAt (headerOf g) k) = date → j = k) :
    (∀ j k, 2 ≤ j → 2 ≤ k → pyStrip (cellAt (headerOf g') j) = date →
      pyStrip (cellAt (headerOf g') k) = date → j = k) ∧ g' ≠ [] := by
  have hlen := submit_result_length date att g g' hg hsub
  rw [submit_result_form date att g hg] at hsub
  cases hsub
  have hglen : 1 ≤ g.length := List.length_pos.mpr hg
  have hwlen : (writeStatuses att (resolvedCol g date) (resolvedGrid g date)
      (namesOf g) 1).length = g.length := by
    rw [writeStatuses_length, resolvedGrid_length g date hg]
    rw [resolvedGrid_length g date hg]
    have := namesOf_length_le g
    omega
  have hhdr : headerOf (writeStatuses att (resolvedCol g date) (resolvedGrid g date)
      (namesOf g) 1 ++
        (newMembersOf att (namesOf g)).map (memberRow (resolvedCol g date))) =
      headerOf (resolvedGrid g date) := by
    rw [headerOf, rowAt_append_left _ _ 0 (by omega), ← headerOf, writeStatuses_headerOf]
  constructor
  · rw [hhdr]
    cases hfd : findDateCol (headerOf g) date with
    | some i =>
      rw [headerOf_resolvedGrid_found g date i hfd]
      exact huniq
    | none =>
      rw [headerOf_resolvedGrid_created g date hfd]
      have hnomatch : ∀ j, 2 ≤ j → j ≠ newDateCol (headerOf g) →
          pyStrip (cellAt (setCellRow (headerOf g) (newDateCol (headerOf g)) date) j) ≠
            date := by
        intro j hj2 hjne
        rw [cellAt_setCellRow_ne _ _ _ _ hjne]
        by_cases hjlen : j < (headerOf g).length
        · exact fun hm => findDateCol_eq_none _ _ hfd j hjlen ⟨hj2, hm⟩
        · rw [cellAt_of_le_length _ _ (by omega)]
          intro hm
          exact hne (by rw [← hm]; rfl)
      intro j k hj hk hmj hmk
      by_cases hjd : j = newDateCol (headerOf g)
      · by_cases hkd : k = newDateCol (headerOf g)
        · rw [hjd, hkd]
        · exact absurd hmk (hnomatch k hk hkd)
      · exact absurd hmj (hnomatch j hj hjd)
  · intro hnil
    have h0 := congrArg List.length hnil
    rw [hlen] at h0
    simp only [List.length_nil] at h0
    omega

/-- C3 amended: for a date key that is non-empty and equal to its trimmed
form, starting from a table whose header has at most one column at index ≥ 2
whose trimmed cell equals the key, any number of submissions with that key
leaves at most one column whose header cell equals the key. -/
theorem C3_column_uniqueness_amended (date : String) (g : Grid)
    (hdate : pyStrip date = date) (hne : date ≠ "")
    (huniq : ∀ j k, 2 ≤ j → 2 ≤ k → pyStrip (cellAt (headerOf g) j) = date →
      pyStrip (cellAt (headerOf g) k) = date → j = k)
    (obss : List (List (String × String))) (g' : Grid)
    (hsub : submitMany date obss g = some g') :
    ∀ j k, 2 ≤ j → 2 ≤ k → cellAt (headerOf g') j = date →
      cellAt (headerOf g') k = date → j = k := by
  have main : ∀ (obss : List (List (String × String))) (g g' : Grid),
      submitMany date obss g = some g' →
      (∀ j k, 2 ≤ j → 2 ≤ k → pyStrip (cellAt (headerOf g) j) = date →
        pyStrip (cellAt (headerOf g) k) = date → j = k) →
      ∀ j k, 2 ≤ j → 2 ≤ k → pyStrip (cellAt (headerOf g') j) = date →
        pyStrip (cellAt (headerOf g') k) = date → j = k := by
    intro obss
    induction obss with
    | nil =>
      intro g g' hsub hu
      rw [submitMany, List.foldl_nil] at hsub
      cases hsub
      exact hu
    | cons att rest ih =>
      intro g g' hsub hu
      rw [submitMany, List.foldl_cons, Option.some_bind] at hsub
      cases hg1 : submitAttendance date att g with
      | none =>
        rw [hg1] at hsub
        have hnone : ∀ (l : List (List (String × String))),
            l.foldl (fun acc att => acc.bind (submitAttendance date att))
              (none : Option Grid) = none := by
          intro l
          induction l with
          | nil => rfl
          | cons a r ihl =>
            rw [List.foldl_cons, Option.none_bind]
            exact ihl
        rw [hnone rest] at hsub
        cases hsub
      | some g1 =>
        rw [hg1] at hsub
        have hgne : g ≠ [] := by
          intro hnil
          subst hnil
          rw [submitAttendance] at hg1
          simp at hg1
        have hpres := submit_trimUnique_preserved date att g g1 hgne hdate hne hg1 hu
        exact ih g1 g' hsub hpres.1
  intro j k hj hk hmj hmk
  exact main obss g g' hsub huniq j k hj hk
    (by rw [hmj]; exact hdate) (by rw [hmk]; exact hdate)

theorem C3_column_uniqueness_amended_witness :
    submitMany "2024-04-01" [[("Cy", "Present")], [("Cy", "Present")]]
        [["", "Name"], ["", "Cy"]] =
      some [["", "Name", "2024-04-01"], ["", "Cy", "Present"]] ∧
    (2 : Nat) = 2 :=
  ⟨by decide,
    C3_column_uniqueness_amended "2024-04-01" [["", "Name"], ["", "Cy"]]
      (by decide) (by decide)
      (fun j k hj hk hmj hmk => by
        rw [cellAt_of_le_length (headerOf [["", "Name"], ["", "Cy"]]) j (by simpa using hj)]
          at hmj
        exact absurd hmj (by decide))
      [[("Cy", "Present")], [("Cy", "Present")]]
      [["", "Name", "2024-04-01"], ["", "Cy", "Present"]] (by decide)
      2 2 (by decide) (by decide) (by decide) (by decide)⟩

/-- C2 counterexample: submitting with a date key carrying leading whitespace
is not idempotent: the header cell never trim-matches the key, so the second
call creates a second column and rewrites the statuses there. -/
theorem C2_idempotence_counterexample :
    submitAttendance " 2024-01-05" [("Alice", "Present")] [["", "Name"], ["", "Alice"]] =
      some [["", "Name", " 2024-01-05"], ["", "Alice", "Present"]] ∧
    submitAttendance " 2024-01-05" [("Alice", "Present")]
        [["", "Name", " 2024-01-05"], ["", "Alice", "Present"]] =
      some [["", "Name", " 2024-01-05", " 2024-01-05"],
        ["", "Alice", "Present", "Present"]] ∧
    ([["", "Name", " 2024-01-05", " 2024-01-05"],
        ["", "Alice", "Present", "Present"]] : Grid) ≠
      [["", "Name", " 2024-01-05"], ["", "Alice", "Present"]] :=
  ⟨rfl, rfl, by decide⟩

/-- C2 amended: repeat submission is idempotent for well-formed inputs: the
date key equals its trimmed form; the header row reaches past the name column
and the name-column header is not blank; every pre-existing data row has a
non-empty trimmed name; and the observation keys are non-empty, equal to
their trimmed forms, and pairwise distinct under trimmed-lowercased
comparison.  Then the state reached by the first submission is a fixed point:
the second submission returns exactly the same grid. -/
theorem C2_idempotence_amended (date : String) (att : List (String × String))
    (g g1 : Grid) (hg : g ≠ [])
    (hdate : pyStrip date = date)
    (hhlen : 2 ≤ (headerOf g).length)
    (hhname : pyStrip (cellAt (headerOf g) 1) ≠ "")
    (hnames : ∀ row ∈ g.drop 1, rowName row ≠ "")
    (hkeys : ∀ p ∈ att, pyStrip p.1 = p.1 ∧ p.1 ≠ "")
    (hpw : att.Pairwise (fun p q => pyLower (pyStrip p.1) ≠ pyLower (pyStrip q.1)))
    (hsub : submitAttendance date att g = some g1) :
    submitAttendance date att g1 = some g1 := by
  rw [submit_result_form date att g hg] at hsub
  injection hsub with hinj
  subst hinj
  have hglen : 1 ≤ g.length := List.length_pos.mpr hg
  have hnlen : (namesOf g).length = g.length - 1 := namesOf_length_full g hnames
  have hd2 : 2 ≤ resolvedCol g date := resolvedCol_ge_two g date hhlen hhname
  have hwlen : (writeStatuses att (resolvedCol g date) (resolvedGrid g date)
      (namesOf g) 1).length = g.length := by
    rw [writeStatuses_length, resolvedGrid_length g date hg]
    rw [resolvedGrid_length g date hg]
    omega
  have hmemkeys : ∀ q ∈ newMembersOf att (namesOf g), pyStrip q.1 = q.1 ∧ q.1 ≠ "" := by
    intro q hq
    obtain ⟨p, hp, rfl, -⟩ := newMembersOf_mem _ _ q hq
    have hk := hkeys p hp
    constructor
    · show pyStrip (pyStrip p.1) = pyStrip p.1
      rw [hk.1]
      exact hk.1
    · show pyStrip p.1 ≠ ""
      rw [hk.1]
      exact hk.2
  have hgwne : writeStatuses att (resolvedCol g date) (resolvedGrid g date)
      (namesOf g) 1 ≠ [] := by
    intro hnil
    have h0 := congrArg List.length hnil
    rw [hwlen] at h0
    simp only [List.length_nil] at h0
    omega
  have hnames1 : namesOf (writeStatuses att (resolvedCol g date) (resolvedGrid g date)
      (namesOf g) 1 ++
        (newMembersOf att (namesOf g)).map (memberRow (resolvedCol g date))) =
      namesOf g ++ (newMembersOf att (namesOf g)).map Prod.fst := by
    rw [namesOf_append _ _ hgwne, namesOf_writeStatuses _ _ _ _ _ (by omega),
      namesOf_resolvedGrid, filterMap_nameEntry_memberRows _ _ (by omega) hmemkeys]
  have hG1len : (writeStatuses att (resolvedCol g date) (resolvedGrid g date)
      (namesOf g) 1 ++
        (newMembersOf att (namesOf g)).map (memberRow (resolvedCol g date))).length =
      g.length + (newMembersOf att (namesOf g)).length := by
    rw [List.length_append, List.length_map, hwlen]
  have hG1ne : writeStatuses att (resolvedCol g date) (resolvedGrid g date)
      (namesOf g) 1 ++
        (newMembersOf att (namesOf g)).map (memberRow (resolvedCol g date)) ≠ [] := by
    intro hnil
    have h0 := congrArg List.length hnil
    rw [hG1len] at h0
    simp only [List.length_nil] at h0
    omega
  have hhdr1 : headerOf (writeStatuses att (resolvedCol g date) (resolvedGrid g date)
      (namesOf g) 1 ++
        (newMembersOf att (namesOf g)).map (memberRow (resolvedCol g date))) =
      headerOf (resolvedGrid g date) := by
    rw [headerOf, rowAt_append_left _ _ 0 (by omega), ← headerOf, writeStatuses_headerOf]
  have hfd2 : findDateCol (headerOf (writeStatuses att (resolvedCol g date)
      (resolvedGrid g date) (namesOf g) 1 ++
        (newMembersOf att (namesOf g)).map (memberRow (resolvedCol g date)))) date =
      some (resolvedCol g date) := by
    rw [hhdr1]
    exact findDateCol_resolved g date hdate hhlen hhname
  have hres2col : resolvedCol (writeStatuses att (resolvedCol g date)
      (resolvedGrid g date) (namesOf g) 1 ++
        (newMembersOf att (namesOf g)).map (memberRow (resolvedCol g date))) date =
      resolvedCol g date := by
    rw [resolvedCol, hfd2]
  have hres2grid : resolvedGrid (writeStatuses att (resolvedCol g date)
      (resolvedGrid g date) (namesOf g) 1 ++
        (newMembersOf att (namesOf g)).map (memberRow (resolvedCol g date))) date =
      writeStatuses att (resolvedCol g date) (resolvedGrid g date) (namesOf g) 1 ++
        (newMembersOf att (namesOf g)).map (memberRow (resolvedCol g date)) := by
    rw [resolvedGrid, hfd2]
  have hnm2 : newMembersOf att (namesOf (writeStatuses att (resolvedCol g date)
      (resolvedGrid g date) (namesOf g) 1 ++
        (newMembersOf att (namesOf g)).map (memberRow (resolvedCol g date)))) = [] := by
    apply newMembersOf_eq_nil
    intro p hp
    rcases newMembersOf_complete att (namesOf g) p hp with ⟨n, hn, he⟩ | ⟨q, hq, he⟩
    · refine ⟨n, ?_, he⟩
      rw [hnames1]
      exact List.mem_append_left _ hn
    · refine ⟨q.1, ?_, he⟩
      rw [hnames1]
      exact List.mem_append_right _ (List.mem_map_of_mem _ hq)
  rw [submit_result_form date att _ hG1ne, hres2col, hres2grid, hnm2]
  simp only [List.map_nil, List.append_nil]
  congr 1
  apply writeStatuses_eq_self
  intro k hk
  rw [hnames1] at hk
  rw [List.length_append, List.length_map, hnlen] at hk
  rw [hnames1]
  by_cases hkcase : k < (namesOf g).length
  · have hrk : 1 + k < (writeStatuses att (resolvedCol g date) (resolvedGrid g date)
        (namesOf g) 1).length := by omega
    have hrowAt : rowAt (writeStatuses att (resolvedCol g date) (resolvedGrid g date)
        (namesOf g) 1 ++
          (newMembersOf att (namesOf g)).map (memberRow (resolvedCol g date)))
        (1 + k) = rowAt (writeStatuses att (resolvedCol g date) (resolvedGrid g date)
          (namesOf g) 1) (1 + k) :=
      rowAt_append_left _ _ _ hrk
    have hwrit := writeStatuses_rowAt_written att (resolvedCol g date)
      (resolvedGrid g date) (namesOf g) 1 k hkcase
    refine ⟨by rw [hG1len]; omega, ?_, ?_⟩
    · rw [hrowAt, hwrit, setCellRow_length]
      omega
    · rw [getCell, hrowAt, hwrit, cellAt_setCellRow_self,
        getD_append_left _ _ _ hkcase]
  · have hj : k - (namesOf g).length < (newMembersOf att (namesOf g)).length := by
      omega
    have hsplit : k = (namesOf g).length + (k - (namesOf g).length) := by omega
    have hrow1 : 1 + k = (writeStatuses att (resolvedCol g date) (resolvedGrid g date)
        (namesOf g) 1).length + (k - (namesOf g).length) := by
      rw [hwlen]
      omega
    have hrowAt : rowAt (writeStatuses att (resolvedCol g date) (resolvedGrid g date)
        (namesOf g) 1 ++
          (newMembersOf att (namesOf g)).map (memberRow (resolvedCol g date)))
        (1 + k) = memberRow (resolvedCol g date)
          ((newMembersOf att (namesOf g)).getD (k - (namesOf g).length) ("", "")) := by
      conv_lhs => rw [hrow1]
      rw [rowAt_append_right, getD_map_memberRow _ _ _ hj]
    have hqmem : (newMembersOf att (namesOf g)).getD (k - (namesOf g).length) ("", "") ∈
        newMembersOf att (namesOf g) := by
      rw [List.getD_eq_getElem?_getD, List.getElem?_eq_getElem hj]
      exact List.getElem_mem _
    obtain ⟨p, hp, hqeq, -⟩ := newMembersOf_mem _ _ _ hqmem
    have hkp := hkeys p hp
    have hgetname : (namesOf g ++ (newMembersOf att (namesOf g)).map Prod.fst).getD k "" =
        ((newMembersOf att (namesOf g)).getD (k - (namesOf g).length) ("", "")).1 := by
      conv_lhs => rw [hsplit]
      rw [getD_append_right, getD_map_fst _ _ hj]
    have hstatus : statusFor att
        ((newMembersOf att (namesOf g)).getD (k - (namesOf g).length) ("", "")).1 =
        ((newMembersOf att (namesOf g)).getD (k - (namesOf g).length) ("", "")).2 := by
      rw [hqeq]
      show statusFor att (pyStrip p.1) = p.2
      rw [statusFor, hkp.1, show pyLower p.1 = pyLower (pyStrip p.1) from by rw [hkp.1],
        attLookup_unique att p hp hpw]
    refine ⟨by rw [hG1len]; omega, ?_, ?_⟩
    · rw [hrowAt, memberRow_length _ _ hd2]
      omega
    · rw [getCell, hrowAt, cellAt_memberRow_dateCol, hgetname, hstatus]

theorem C2_idempotence_amended_witness :
    submitAttendance "2024-05-01" [("Di", "Present")]
        [["", "Name", "2024-05-01"], ["", "Di", "Present"]] =
      some [["", "Name", "2024-05-01"], ["", "Di", "Present"]] :=
  C2_idempotence_amended "2024-05-01" [("Di", "Present")] [["", "Name"], ["", "Di"]]
    [["", "Name", "2024-05-01"], ["", "Di", "Present"]] (by decide) (by decide)
    (by decide) (by decide) (by decide) (by decide)
    (List.pairwise_singleton _ _) (by decide)

end AttendanceModel
